import Mathlib

/-!
Verification of the dynamic specification-label engine of the
`equipment_manager` repository.

The Python sources under study are `search_equipment.py` (label fetching with
collision resolution, label application, mixed-type reconciliation, column
ordering) and `equipment_manager.py` (grid building, change detection,
write-back translation, batch saving).  Every definition below is a shallow
embedding of the corresponding Python function; Python strings are embedded as
Lean `String`, with the string primitives (strip, upper, startswith, slicing,
ordering, decimal formatting) re-implemented structurally over the underlying
character list so that all definitions are executable and kernel-reducible.
Python `None`/`NaN` cell values are embedded as `Option String` with `none`
standing for a missing value; Python dicts are embedded as association lists
with explicit insert-or-update semantics (`dictSet`).
-/

namespace EquipSpec

/-! ### Python string primitives, embedded over `List Char` -/

/-- Python `str.strip()`: remove leading and trailing whitespace. -/
def pyStrip (s : String) : String :=
  ⟨((s.data.dropWhile Char.isWhitespace).reverse.dropWhile Char.isWhitespace).reverse⟩

/-- Python `str.upper()` for the ASCII strings relevant here. -/
def pyUpper (s : String) : String :=
  ⟨s.data.map Char.toUpper⟩

/-- Python `s.startswith(p)`. -/
def pyStartsWith (s p : String) : Bool :=
  s.data.take p.data.length == p.data

/-- Python slicing `s[n:]` (by characters). -/
def pySliceFrom (s : String) (n : Nat) : String :=
  ⟨s.data.drop n⟩

/-- Python `str.isdigit()` (ASCII): nonempty and all characters digits. -/
def pyIsDigit (s : String) : Bool :=
  !s.data.isEmpty && s.data.all Char.isDigit

/-- Python string comparison `a < b` (lexicographic on code points). -/
def pyLtChars : List Char → List Char → Bool
  | _, [] => false
  | [], _ :: _ => true
  | a :: as, b :: bs =>
    if a.toNat < b.toNat then true
    else if b.toNat < a.toNat then false
    else pyLtChars as bs

/-- Python string comparison `a <= b`, as the relation used by `sorted`. -/
def pyStrLe (a b : String) : Prop :=
  pyLtChars b.data a.data = false

instance : DecidableRel pyStrLe := fun a b =>
  inferInstanceAs (Decidable (pyLtChars b.data a.data = false))

/-- Decimal digits of a natural number, most significant first (fuelled copy
    of the usual repeated-division algorithm; the fuel `n+1` always
    suffices). -/
def natDigitsCore : Nat → Nat → List Char → List Char
  | 0, _, acc => acc
  | fuel + 1, n, acc =>
    let d := Char.ofNat (48 + n % 10)
    if n < 10 then d :: acc else natDigitsCore fuel (n / 10) (d :: acc)

/-- Decimal digit string of a natural number (Python `str(n)` for `n : Nat`). -/
def natDigits (n : Nat) : List Char :=
  natDigitsCore (n + 1) n []

/-- Python `str(n)` as a `String`. -/
def natStr (n : Nat) : String := ⟨natDigits n⟩

/-- Numeric value of a digit string (used only to prove `natDigits` injective). -/
def valOfDigits (l : List Char) : Nat :=
  l.foldl (fun a c => 10 * a + (c.toNat - 48)) 0

/-- The label-uniquifying suffix format of Python: the original label
    followed by a space and the parenthesized count. -/
def suffixLabel (orig : String) (n : Nat) : String :=
  orig ++ " (" ++ natStr n ++ ")"

/-- The `while clean_label in spec_mapping.values()` loop of
    `_get_specification_labels_from_db`, with explicit fuel.  The fuel passed
    by `resolveCollision` is proven sufficient below
    (`resolveCollision_fresh`). -/
def resolveCollisionGo (orig : String) (vals : List String) :
    Nat → String → Nat → String
  | 0, cur, _ => cur
  | fuel + 1, cur, n =>
    if cur ∈ vals then resolveCollisionGo orig vals fuel (suffixLabel orig n) (n + 1)
    else cur

/-- Collision resolution for one candidate label: repeatedly append `" (n)"`
    for `n = 1, 2, ...` until the label is not among the already assigned
    values. -/
def resolveCollision (orig : String) (vals : List String) : String :=
  resolveCollisionGo orig vals (vals.length + 2) orig 1

/-! ### Association lists with Python-dict insert-or-update semantics -/

/-- Python `d[k] = v` on a dict embedded as an association list: update the
    existing binding in place, otherwise append a new one. -/
def dictSet {α : Type} (d : List (String × α)) (k : String) (v : α) :
    List (String × α) :=
  if d.any (fun p => p.1 == k) then
    d.map (fun p => bif p.1 == k then (k, v) else p)
  else d ++ [(k, v)]

/-! ### The label catalog resolver (`_get_specification_labels_from_db`) -/

/-- The canonical slot-column name `Specifications{i}`. -/
def specName (i : Nat) : String :=
  "Specifications" ++ natStr i

/-- Validity test for one raw catalog cell: non-null and, after trimming,
    non-empty and not the placeholder `NULL` (the Python code upper-cases
    before comparing, so the test is case-insensitive). -/
def validLabelB : Option String → Bool
  | none => false
  | some raw => (pyStrip raw != "") && (pyUpper (pyStrip raw) != "NULL")

/-- State of the resolver loop: the `spec_mapping` dict (slot name → resolved
    label, in insertion order) and the `duplicate_labels` dict (resolved
    label → slot name). -/
structure ResolverState where
  specMapping : List (String × String)
  duplicateLabels : List (String × String)

/-- One iteration of the `for spec_num in range(1, 51)` loop of
    `_get_specification_labels_from_db`. -/
def resolveStep (cat : Nat → Option String) (st : ResolverState) (i : Nat) :
    ResolverState :=
  if validLabelB (cat i) then
    let cleanLabel := pyStrip ((cat i).getD "")
    let finalLabel :=
      if st.duplicateLabels.any (fun p => p.1 == cleanLabel) then
        resolveCollision cleanLabel (st.specMapping.map Prod.snd)
      else cleanLabel
    { specMapping := dictSet st.specMapping (specName i) finalLabel
      duplicateLabels := dictSet st.duplicateLabels finalLabel (specName i) }
  else st

/-- Embedding of `_get_specification_labels_from_db`, given the catalog row for one
    equipment type as a function from slot ordinal to raw cell value
    (`none` = SQL NULL or missing column). -/
def resolveLabels (cat : Nat → Option String) : List (String × String) :=
  ((List.range' 1 50).foldl (resolveStep cat) ⟨[], []⟩).specMapping

/-- Loop invariant: the keys of `duplicate_labels` are exactly the values of
    `spec_mapping`, in order, and those values are pairwise distinct. -/
def ResolverInv (st : ResolverState) : Prop :=
  st.specMapping.map Prod.snd = st.duplicateLabels.map Prod.fst ∧
    (st.specMapping.map Prod.snd).Nodup

/-- Catalog row of end-to-end scenario 1: type BALER assigns the label
    `Weight (kg)` to both slot 1 and slot 2. -/
def balerCatalog : Nat → Option String := fun i =>
  if i = 1 then some "Weight (kg)"
  else if i = 2 then some "Weight (kg)"
  else none

/-- A catalog row exercising both the case-insensitive `NULL` filter and the
    collision suffixing: slots 1 and 2 carry the same label `A`, slot 3
    carries the lower-case placeholder `null`. -/
def nullAndDupCatalog : Nat → Option String := fun i =>
  if i = 1 then some "A"
  else if i = 2 then some "A"
  else if i = 3 then some "null"
  else none

/-- A catalog row with two distinct labels (slot 1 needing trimming). -/
def distinctCatalog : Nat → Option String := fun i =>
  if i = 1 then some " Weight (kg) "
  else if i = 2 then some "Power (kW)"
  else none

/-! ### The data-frame model and the label applier
    (`_apply_dynamic_specification_labels`,
    `_remove_all_specification_columns`,
    `_apply_dynamic_specification_labels_to_mixed_data`) -/

/-- A pandas DataFrame, column-major: each column is a name together with its
    cell values (`none` = NaN/None).  Duplicate column names are allowed, as
    in pandas. -/
structure PyDF where
  cols : List (String × List (Option String))
deriving DecidableEq

/-- pandas `df.empty`: true when either axis has length zero. -/
def PyDF.isEmpty (df : PyDF) : Bool :=
  df.cols.isEmpty || df.cols.all (fun c => c.2.isEmpty)

def PyDF.colNames (df : PyDF) : List String :=
  df.cols.map Prod.fst

def PyDF.hasCol (df : PyDF) (c : String) : Bool :=
  df.colNames.contains c

/-- The values of column `c` (pandas `df[c]`, first match on duplicates). -/
def PyDF.colValues (df : PyDF) (c : String) : List (Option String) :=
  match df.cols.find? (fun p => p.1 == c) with
  | some p => p.2
  | none => []

/-- pandas `df.rename(columns=m)`: map every column name through the dict. -/
def renameCols (df : PyDF) (m : List (String × String)) : PyDF :=
  ⟨df.cols.map (fun p => ((List.lookup p.1 m).getD p.1, p.2))⟩

/-- Embedding of `_remove_all_specification_columns`: drop every column whose name starts
    with `Specifications`. -/
def removeAllSpecColumns (df : PyDF) : PyDF :=
  ⟨df.cols.filter (fun p => !pyStartsWith p.1 "Specifications")⟩

/-- Python truthiness of the `equipment_type` argument (`None` and the empty
    string are falsy). -/
def truthyStr : Option String → Bool
  | none => false
  | some s => s != ""

/-- Embedding of `_apply_dynamic_specification_labels`, with the database fetch
    abstracted as `getLabels` (the per-type resolved mapping, e.g.
    `resolveLabels` of the catalog row of that type). -/
def applyDynamicSpecLabels (getLabels : String → List (String × String))
    (df : PyDF) (equipmentType : Option String) : PyDF :=
  if df.isEmpty then df
  else if truthyStr equipmentType then
    let specLabels := getLabels (equipmentType.getD "")
    if !specLabels.isEmpty then
      removeAllSpecColumns (renameCols df specLabels)
    else removeAllSpecColumns df
  else removeAllSpecColumns df

/-- Model of pandas `Series.dropna()` on an `Option`-valued column. -/
def dropNone (l : List (Option String)) : List String :=
  l.filterMap id

/-- Model of pandas `Series.unique()`: distinct values in first-seen order. -/
def uniqueFirstSeen (l : List String) : List String :=
  l.foldl (fun acc v => if v ∈ acc then acc else acc ++ [v]) []

/-- Model of pandas `value_counts().index[0]` on a list with at least the distinct values
    `t :: ts`: the value with the highest frequency.  pandas sorts by count
    descending; ties are modelled here as broken in first-seen order (the
    fold keeps the earlier value on equal counts). -/
def mostFrequentType (vals : List String) (t : String) (ts : List String) :
    String :=
  ts.foldl (fun best v => if vals.count v > vals.count best then v else best) t

/-- Embedding of `_apply_dynamic_specification_labels_to_mixed_data`. -/
def applyLabelsToMixedData (getLabels : String → List (String × String))
    (df : PyDF) : PyDF :=
  if df.isEmpty || !df.hasCol "EquipmentType" then removeAllSpecColumns df
  else
    match uniqueFirstSeen (dropNone (df.colValues "EquipmentType")) with
    | [] => removeAllSpecColumns df
    | [t] => applyDynamicSpecLabels getLabels df (some t)
    | t :: u :: ts =>
      applyDynamicSpecLabels getLabels df
        (some (mostFrequentType (dropNone (df.colValues "EquipmentType")) t
          (u :: ts)))

/-- A one-row frame whose only column is the non-canonical name
    `Specifications51`. -/
def spec51DF : PyDF := ⟨[("Specifications51", [some "x"])]⟩

/-- A small frame with one canonical slot column and one business column. -/
def demoDF : PyDF :=
  ⟨[("Specifications1", [some "100"]), ("Model", [some "M1"])]⟩

/-- A demo label source: every type maps slot 1 to `Weight (kg)`. -/
def demoGetLabels : String → List (String × String) :=
  fun _ => [("Specifications1", "Weight (kg)")]

/-- A frame with a single equipment type. -/
def singleTypeDF : PyDF :=
  ⟨[("EquipmentType", [some "A", some "A"]),
    ("Specifications1", [some "1", some "2"])]⟩

/-- A frame with mixed types: 7 rows of `A` and 3 rows of `B`. -/
def mixedTypeDF : PyDF :=
  ⟨[("EquipmentType",
      [some "A", some "A", some "B", some "A", some "A", some "B", some "A",
        some "A", some "B", some "A"]),
    ("Specifications1",
      [some "1", some "2", some "3", some "4", some "5", some "6", some "7",
        some "8", some "9", some "10"])]⟩

/-- A frame with no equipment-type column at all. -/
def noTypeDF : PyDF := ⟨[("Specifications1", [some "x"]), ("Model", [some "M"])]⟩

/-! ### The column orderer (`_get_ordered_columns_for_editing`) -/

/-- The hardcoded `priority_columns` list. -/
def priorityColumns : List String :=
  ["CustomerID", "CustomerName", "CustomerLocation", "ActiveStatus",
    "SortSystemPosition", "SerialNumber", "OtherOrPreviousPosition",
    "CustomerPositionNo", "YearManufactured", "SalesDateWarrantyStartDate",
    "InstallDate", "Manufacturer", "ManufacturerProjectID", "ParentProjectID",
    "EquipmentType", "FunctionalType", "FunctionalPosition",
    "ManufacturerModelDescription", "Model"]

/-- The hardcoded system-column list of the classification loop. -/
def editorSystemColumns : List String :=
  ["Notes", "EquipmentKey", "RecordHistory", "RowCounter", "MachineInfoID",
    "UploadsPendingID", "HashedSerialNumber"]

/-- Classification of a column into the specification bucket: not a priority
    column and (slot-prefixed or not a system column) — the `elif` chain of
    the loop. -/
def specBucketB (c : String) : Bool :=
  !priorityColumns.contains c &&
    (pyStartsWith c "Specifications" || !editorSystemColumns.contains c)

/-- Classification into the system bucket. -/
def sysBucketB (c : String) : Bool :=
  !priorityColumns.contains c && !pyStartsWith c "Specifications" &&
    editorSystemColumns.contains c

/-- The numbered-slot test of the orderer: the Python test that the name
    starts with the slot prefix and that the slice from character 13 on is
    all digits — note that the slice starts inside the 14-character
    prefix. -/
def numberedSpecB (c : String) : Bool :=
  pyStartsWith c "Specifications" && pyIsDigit (pySliceFrom c 13)

/-- Lexicographic order on pairs of extracted ordinal and column name, as
    the Python tuple sort compares them. -/
def pairNumRel : (Nat × String) → (Nat × String) → Prop :=
  fun p q => p.1 < q.1 ∨ (p.1 = q.1 ∧ pyStrLe p.2 q.2)

instance : DecidableRel pairNumRel := fun p q =>
  inferInstanceAs (Decidable (p.1 < q.1 ∨ (p.1 = q.1 ∧ pyStrLe p.2 q.2)))

/-- Embedding of `_get_ordered_columns_for_editing`, as a function of the column list.
    The stable Python sorting functions are embedded as insertion sort,
    which computes the same result for a total preorder. -/
def orderedColumnsForEditing (cols : List String) : List String :=
  let specCols := cols.filter specBucketB
  let systemCols := cols.filter sysBucketB
  let numberedPairs := (specCols.filter numberedSpecB).map
    (fun c => (valOfDigits (pySliceFrom c 13).data, c))
  let otherSpecCols := specCols.filter (fun c => !numberedSpecB c)
  priorityColumns.filter (fun c => cols.contains c)
    ++ (List.insertionSort pairNumRel numberedPairs).map Prod.snd
    ++ List.insertionSort pyStrLe otherSpecCols
    ++ List.insertionSort pyStrLe systemCols

/-! ### The equipment-manager module: dynamic columns, grid building,
    change detection and write-back (`equipment_manager.py`) -/

/-- A cell of a grid/database row: `none` models Python `None`/pandas NaN. -/
abbrev Cell := Option String

/-- Python `str(value)` for a cell, as used inside `str(...).strip()` calls
    (`str(None) = "None"`). -/
def cellStr : Cell → String
  | some s => s
  | none => "None"

/-- Python dictionary get on a row, with empty-string default. -/
def pyGet (row : List (String × Cell)) (c : String) : Cell :=
  (List.lookup c row).getD (some "")

/-- The `base_columns` list of `_get_dynamic_columns` (also the head of
    `SQL_COLUMN_ORDER`). -/
def managerBaseColumns : List String :=
  ["CustomerID", "CustomerName", "CustomerLocation", "ActiveStatus",
    "SortSystemPosition", "SerialNumber", "OtherOrPreviousPosition",
    "CustomerPositionNo", "YearManufactured", "SalesDateWarrantyStartDate",
    "InstallDate", "Manufacturer", "ManufacturerProjectID", "ParentProjectID",
    "EquipmentType", "FunctionalType", "FunctionalPosition",
    "ManufacturerModelDescription", "Model"]

/-- The `end_columns` list of `_get_dynamic_columns` (also the tail of
    `SQL_COLUMN_ORDER`). -/
def managerEndColumns : List String :=
  ["Notes", "EquipmentKey", "RecordHistory", "RowCounter", "MachineInfoID",
    "UploadsPendingID", "HashedSerialNumber"]

/-- The `SQL_COLUMN_ORDER` list: base columns, the fifty slots, then system columns. -/
def sqlColumnOrder : List String :=
  managerBaseColumns ++ (List.range' 1 50).map specName ++ managerEndColumns

/-- The `Config.FIXED_FIELDS` list. -/
def fixedFields : List String :=
  ["CustomerID", "CustomerName", "CustomerLocation", "ActiveStatus",
    "Manufacturer", "ManufacturerProjectID", "ParentProjectID"]

/-- The dict-building loop of `_fetch_specification_labels`: label number
    i (1-based) is assigned the slot name with ordinal i, a later
    assignment to the same label overwriting the earlier one. -/
def fetchSpecLabelsAux :
    List String → Nat → List (String × String) → List (String × String)
  | [], _, acc => acc
  | l :: ls, i, acc => fetchSpecLabelsAux ls (i + 1) (dictSet acc l (specName i))

/-- Embedding of `_fetch_specification_labels`, given the label column of the reference
    view rows: maps each label to `Specifications{i}` by row position. -/
def fetchSpecificationLabels (labels : List String) : List (String × String) :=
  fetchSpecLabelsAux labels 1 []

/-- Embedding of `_get_dynamic_columns` (display columns and label→slot mapping) for a
    selected type whose reference rows carry `labels`. -/
def getDynamicColumns (labels : List String) :
    List String × List (String × String) :=
  let m := fetchSpecificationLabels labels
  if !m.isEmpty then (managerBaseColumns ++ m.map Prod.fst ++ managerEndColumns, m)
  else (managerBaseColumns ++ (List.range' 1 20).map specName ++
    managerEndColumns, [])

/-- The display-column list of `_get_dynamic_columns`. -/
def managerDisplayColumns (labels : List String) : List String :=
  (getDynamicColumns labels).1

/-- Cell fetch of `_build_complete_grid`: the row value at the column when
    present, otherwise the empty string. -/
def gridCell (dbRow : List (String × Cell)) (c : String) : Cell :=
  match List.lookup c dbRow with
  | some v => v
  | none => some ""

/-- The existing-record branch of `_build_complete_grid` for one database
    row: display columns mapped through the label→slot dict, on top of the
    `Status` and `RowID` entries. -/
def buildGridRow (labels : List String) (statusStr rowId : String)
    (dbRow : List (String × Cell)) : List (String × Cell) :=
  (managerDisplayColumns labels).foldl
    (fun grid col =>
      dictSet grid col
        (match List.lookup col (getDynamicColumns labels).2 with
          | some dbCol => gridCell dbRow dbCol
          | none => gridCell dbRow col))
    [("Status", some statusStr), ("RowID", some rowId)]

/-- Value normalization for persistence: null stays null, a value blank
    after stripping becomes null, anything else is kept as text. -/
def normalizeCell : Cell → Cell
  | none => none
  | some s => if pyStrip s != "" then some s else none

/-- The record-building loop of `_save_changes_only` for one edited row:
    fixed fields come from the session, SQL columns from the row
    (normalized), and a specification label writes to
    `Specifications{index+1}` by its position in `spec_labels`. -/
def buildRecordCore (displayColumns specLabels : List String)
    (sessionGet : String → String) (rowDict : List (String × Cell)) :
    List (String × Cell) :=
  displayColumns.foldl
    (fun record col =>
      if fixedFields.contains col then
        dictSet record col (some (sessionGet col))
      else if sqlColumnOrder.contains col then
        dictSet record col (normalizeCell (pyGet rowDict col))
      else if specLabels.contains col then
        dictSet record (specName (specLabels.indexOf col + 1))
          (normalizeCell (pyGet rowDict col))
      else record)
    []

/-- The timestamped audit entry `[ts] Created/Modified by: user`. -/
def historyEntry (isNew : Bool) (timestamp user : String) : String :=
  "[" ++ timestamp ++ "] " ++ (if isNew then "Created" else "Modified") ++
    " by: " ++ user

/-- The existing history text of a row: a missing or null entry becomes
    the empty string. -/
def existingHistory (rowDict : List (String × Cell)) : String :=
  match pyGet rowDict "RecordHistory" with
  | some s => s
  | none => ""

/-- The RecordHistory update of `_save_changes_only`: append the new entry
    to any existing history, newline-separated. -/
def addRecordHistory (record : List (String × Cell))
    (rowDict : List (String × Cell)) (isNew : Bool) (ts user : String) :
    List (String × Cell) :=
  let existing := existingHistory rowDict
  if existing != "" then
    dictSet record "RecordHistory"
      (some (existing ++ "\n" ++ historyEntry isNew ts user))
  else
    dictSet record "RecordHistory" (some (historyEntry isNew ts user))

/-- The full record constructed for one row by `_save_changes_only` before
    the INSERT/UPDATE statement is issued. -/
def buildRecord (displayColumns specLabels : List String)
    (sessionGet : String → String) (rowDict : List (String × Cell))
    (isNew : Bool) (ts user : String) : List (String × Cell) :=
  addRecordHistory (buildRecordCore displayColumns specLabels sessionGet
    rowDict) rowDict isNew ts user

/-- The blank-row test of the save loop: no display column holds a value
    that is nonempty after stripping. -/
def rowIsBlank (displayColumns : List String)
    (rowDict : List (String × Cell)) : Bool :=
  !displayColumns.any (fun col => pyStrip (cellStr (pyGet rowDict col)) != "")

/-- The per-row processing loop of `_save_changes_only`: the persistence
    outcome of each row (record building, SQL round trip, commit) is
    abstracted as `persist`; a failure is appended to the error list and the
    loop continues with the next row. -/
def saveChangesLoop (displayColumns : List String)
    (persist : Nat → List (String × Cell) → Except String Unit)
    (rows : List (Nat × List (String × Cell))) : Nat × List String :=
  rows.foldl
    (fun acc r =>
      if rowIsBlank displayColumns r.2 then acc
      else
        match persist r.1 r.2 with
        | Except.ok _ => (acc.1 + 1, acc.2)
        | Except.error e =>
          (acc.1, acc.2 ++ ["Row " ++ natStr (r.1 + 1) ++ ": " ++ e]))
    (0, [])

def isOkE : Except String Unit → Bool
  | Except.ok _ => true
  | Except.error _ => false

def errOfE : Except String Unit → String
  | Except.ok _ => ""
  | Except.error e => e

/-- Python tuple comparison on `(column, value)` string pairs, as
    `sorted(data_to_hash.items())` compares them. -/
def pairStrRel : (String × String) → (String × String) → Prop :=
  fun p q => pyLtChars p.1.data q.1.data = true ∨ (p.1 = q.1 ∧ pyStrLe p.2 q.2)

instance : DecidableRel pairStrRel := fun p q =>
  inferInstanceAs (Decidable (pyLtChars p.1.data q.1.data = true ∨
    (p.1 = q.1 ∧ pyStrLe p.2 q.2)))

/-- Embedding of `_get_row_hash`: the sorted `(column, stripped value)` pairs over
    `SQL_COLUMN_ORDER`.  The Python code feeds `str(...)` of this list to
    `md5`; since the digest is a function of this list, hash equality is
    modelled as equality of the list itself. -/
def getRowHash (rowDict : List (String × Cell)) : List (String × String) :=
  List.insertionSort pairStrRel
    (sqlColumnOrder.map (fun c => (c, pyStrip (cellStr (pyGet rowDict c)))))

/-- The row id of a row, with empty-string default (a null row id, which
    would raise in Python, is modelled through `cellStr`). -/
def rowIdOf (rowDict : List (String × Cell)) : String :=
  cellStr (pyGet rowDict "RowID")

/-- How `_detect_changes` classifies one edited row. -/
inductive RowClass where
  | skippedEmpty
  | newRow
  | modifiedRow
  | unchanged
deriving DecidableEq

/-- The per-row classification of `_detect_changes`: blank rows are skipped,
    `NEW_` row ids are new, otherwise the row hash is compared against the
    stored original hash — a missing store entry defaults to the empty
    string, which never equals an md5 digest, so it is classified
    modified. -/
def classifyRow (origHash : List (String × List (String × String)))
    (rowDict : List (String × Cell)) : RowClass :=
  if !(sqlColumnOrder.any
      (fun col => pyStrip (cellStr (pyGet rowDict col)) != "")) then
    RowClass.skippedEmpty
  else if pyStartsWith (rowIdOf rowDict) "NEW_" then
    RowClass.newRow
  else
    match List.lookup (rowIdOf rowDict) origHash with
    | some h =>
      if getRowHash rowDict = h then RowClass.unchanged
      else RowClass.modifiedRow
    | none => RowClass.modifiedRow

/-- The rows of end-to-end scenario 4: five changed rows, each with some
    business content. -/
def scenarioRow : List (String × Cell) := [("CustomerID", some "C1")]

def scenarioRows : List (Nat × List (String × Cell)) :=
  [(0, scenarioRow), (1, scenarioRow), (2, scenarioRow), (3, scenarioRow),
    (4, scenarioRow)]

/-- A persistence oracle where the third row (index 2, reported as `Row 3`)
    fails with a type coercion error. -/
def scenarioPersist : Nat → List (String × Cell) → Except String Unit :=
  fun idx _ =>
    if idx = 2 then Except.error "type coercion error" else Except.ok ()

/-- Rows used against C10: same SQL content, one marked `NEW_`. -/
def c10rowNew : List (String × Cell) :=
  [("RowID", some "NEW_1"), ("CustomerID", some "C")]

def c10rowExisting : List (String × Cell) :=
  [("RowID", some "R1"), ("CustomerID", some "C")]

/-- Rows agreeing on `RowID` and every SQL column, differing only in a
    relabeled specification column. -/
def c10rowA : List (String × Cell) :=
  [("RowID", some "R1"), ("CustomerID", some "C"),
    ("Weight (kg)", some "100")]

def c10rowB : List (String × Cell) :=
  [("RowID", some "R1"), ("CustomerID", some "C"),
    ("Weight (kg)", some "200")]

/-- The contents of `_fetch_specification_labels` for pairwise-distinct
    labels: label `i` (1-based) maps to `Specifications{i}`. -/
def labelPairs : List String → Nat → List (String × String)
  | [], _ => []
  | l :: ls, i => (l, specName i) :: labelPairs ls (i + 1)

/-- The key written by one iteration of the record-building loop of
    `_save_changes_only` (`none` = no branch taken). -/
def writtenKey (specLabels : List String) (col : String) : Option String :=
  if fixedFields.contains col then some col
  else if sqlColumnOrder.contains col then some col
  else if specLabels.contains col then
    some (specName (specLabels.indexOf col + 1))
  else none

/-- The value written by that iteration. -/
def writtenVal (specLabels : List String) (sessionGet : String → String)
    (rowDict : List (String × Cell)) (col : String) : Cell :=
  if fixedFields.contains col then some (sessionGet col)
  else normalizeCell (pyGet rowDict col)

/-! ### Theorems -/

/-! #### Basic facts about the primitives -/

theorem pyLtChars_asymm : ∀ a b : List Char,
    pyLtChars a b = true → pyLtChars b a = false := by
  intro a
  induction a with
  | nil =>
    intro b h
    cases b with
    | nil => simp [pyLtChars] at h
    | cons c cs => simp [pyLtChars]
  | cons x xs ih =>
    intro b h
    cases b with
    | nil => simp [pyLtChars] at h
    | cons c cs =>
      simp only [pyLtChars] at h ⊢
      by_cases h1 : x.toNat < c.toNat
      · have h2 : ¬ c.toNat < x.toNat := by omega
        simp [h1, h2]
      · by_cases h2 : c.toNat < x.toNat
        · simp [h1, h2] at h
        · simp only [if_neg h1, if_neg h2] at h ⊢
          exact ih cs h

theorem pyLtChars_connex : ∀ x y z : List Char,
    pyLtChars x z = true → pyLtChars x y = true ∨ pyLtChars y z = true := by
  intro x
  induction x with
  | nil =>
    intro y z h
    cases z with
    | nil => simp [pyLtChars] at h
    | cons c cs =>
      cases y with
      | nil => right; exact h
      | cons b bs => left; simp [pyLtChars]
  | cons a as ih =>
    intro y z h
    cases z with
    | nil => simp [pyLtChars] at h
    | cons c cs =>
      cases y with
      | nil => right; simp [pyLtChars]
      | cons b bs =>
        simp only [pyLtChars] at h ⊢
        by_cases hac : a.toNat < c.toNat
        · by_cases hab : a.toNat < b.toNat
          · left; simp [hab]
          · right
            have hbc : b.toNat < c.toNat ∨ ¬ b.toNat < c.toNat := em _
            by_cases hbc : b.toNat < c.toNat
            · simp [hbc]
            · exfalso; omega
        · by_cases hca : c.toNat < a.toNat
          · simp [hac, hca] at h
          · have hEq : a.toNat = c.toNat := by omega
            simp only [if_neg hac, if_neg hca] at h
            by_cases hab : a.toNat < b.toNat
            · left; simp [hab]
            · by_cases hba : b.toNat < a.toNat
              · right; have : b.toNat < c.toNat := by omega
                simp [this]
              · have := ih bs cs h
                rcases this with h1 | h1
                · left; simp [if_neg hab, if_neg hba, h1]
                · right
                  have hbneq : ¬ b.toNat < c.toNat := by omega
                  have hcneq : ¬ c.toNat < b.toNat := by omega
                  simp [if_neg hbneq, if_neg hcneq, h1]

instance : IsTotal String pyStrLe := by
  constructor
  intro a b
  unfold pyStrLe
  by_cases h : pyLtChars b.data a.data = true
  · right
    exact pyLtChars_asymm _ _ h
  · left
    simpa using h

instance : IsTrans String pyStrLe := by
  constructor
  intro a b c hab hbc
  unfold pyStrLe at *
  by_cases h : pyLtChars c.data a.data = true
  · rcases pyLtChars_connex c.data b.data a.data h with h1 | h1
    · rw [h1] at hbc; cases hbc
    · rw [h1] at hab; cases hab
  · simpa using h

theorem digitChar_toNat (d : Nat) (h : d < 10) : (Char.ofNat (48 + d)).toNat = 48 + d := by
  interval_cases d <;> decide

theorem natDigitsCore_eq (m : Nat) :
    ∀ fuel acc, m < fuel → natDigitsCore fuel m acc = natDigits m ++ acc := by
  induction m using Nat.strong_induction_on with
  | _ m ih =>
    intro fuel acc hm
    match fuel, hm with
    | 0, hm => omega
    | f + 1, hm =>
      by_cases h10 : m < 10
      · simp [natDigitsCore, natDigits, h10]
      · have hd : m / 10 < m := Nat.div_lt_self (by omega) (by omega)
        have lhs : natDigitsCore (f + 1) m acc =
            natDigitsCore f (m / 10) (Char.ofNat (48 + m % 10) :: acc) := by
          simp [natDigitsCore, if_neg h10]
        have rhs : natDigits m = natDigits (m / 10) ++ [Char.ofNat (48 + m % 10)] := by
          show natDigitsCore (m + 1) m [] = _
          have hstep : natDigitsCore (m + 1) m [] =
              natDigitsCore m (m / 10) [Char.ofNat (48 + m % 10)] := by
            simp [natDigitsCore, if_neg h10]
          rw [hstep, ih _ hd m _ (by omega)]
        rw [lhs, ih _ hd f _ (by omega), rhs, List.append_assoc]
        rfl

theorem natDigits_step (n : Nat) (h : ¬ n < 10) :
    natDigits n = natDigits (n / 10) ++ [Char.ofNat (48 + n % 10)] := by
  have hdiv : n / 10 < n := Nat.div_lt_self (by omega) (by omega)
  show natDigitsCore (n + 1) n [] = _
  have hstep : natDigitsCore (n + 1) n [] =
      natDigitsCore n (n / 10) [Char.ofNat (48 + n % 10)] := by
    simp [natDigitsCore, if_neg h]
  rw [hstep, natDigitsCore_eq _ _ _ (by omega)]

theorem natDigits_small (n : Nat) (h : n < 10) :
    natDigits n = [Char.ofNat (48 + n)] := by
  have : n % 10 = n := Nat.mod_eq_of_lt h
  simp [natDigits, natDigitsCore, h, this]

theorem valOfDigits_natDigits (n : Nat) : valOfDigits (natDigits n) = n := by
  induction n using Nat.strong_induction_on with
  | _ n ih =>
    by_cases h : n < 10
    · rw [natDigits_small n h]
      simp [valOfDigits, digitChar_toNat n h]
    · have hdiv : n / 10 < n := Nat.div_lt_self (by omega) (by omega)
      rw [natDigits_step n h]
      have hmod : n % 10 < 10 := Nat.mod_lt _ (by omega)
      simp only [valOfDigits, List.foldl_append]
      have := ih (n / 10) hdiv
      simp only [valOfDigits] at this
      rw [this]
      simp [List.foldl, digitChar_toNat _ hmod]
      omega

theorem natDigits_injective : Function.Injective natDigits := by
  intro m n h
  have := congrArg valOfDigits h
  rwa [valOfDigits_natDigits, valOfDigits_natDigits] at this

theorem suffixLabel_data (orig : String) (n : Nat) :
    (suffixLabel orig n).data = orig.data ++ [' ', '('] ++ natDigits n ++ [')'] := by
  simp [suffixLabel, natStr, String.data_append]

theorem suffixLabel_injective (orig : String) {m n : Nat}
    (h : suffixLabel orig m = suffixLabel orig n) : m = n := by
  have hd := congrArg String.data h
  rw [suffixLabel_data, suffixLabel_data] at hd
  rw [List.append_assoc, List.append_assoc, List.append_assoc, List.append_assoc] at hd
  have h1 := List.append_cancel_left hd
  have h2 := List.append_cancel_left h1
  have h3 := List.append_cancel_right h2
  exact natDigits_injective h3

theorem exists_fresh_suffix (orig : String) (vals : List String) (start : Nat) :
    ∃ k, k < vals.length + 1 ∧ suffixLabel orig (start + k) ∉ vals := by
  by_contra hcon
  push_neg at hcon
  set cands : List String :=
    (List.range (vals.length + 1)).map (fun k => suffixLabel orig (start + k)) with hcands
  have hnodup : cands.Nodup := by
    refine List.Nodup.map ?_ (List.nodup_range _)
    intro k1 k2 hk
    have := suffixLabel_injective orig hk
    omega
  have hsub : ∀ x ∈ cands, x ∈ vals := by
    intro x hx
    rw [hcands, List.mem_map] at hx
    obtain ⟨k, hk, rfl⟩ := hx
    exact hcon k (List.mem_range.mp hk)
  have hcard1 : cands.toFinset.card = vals.length + 1 := by
    rw [List.toFinset_card_of_nodup hnodup]
    simp [hcands]
  have hcard2 : cands.toFinset.card ≤ vals.toFinset.card := by
    apply Finset.card_le_card
    intro x hx
    rw [List.mem_toFinset] at hx ⊢
    exact hsub x hx
  have hcard3 : vals.toFinset.card ≤ vals.length := List.toFinset_card_le vals
  omega

theorem resolveCollisionGo_spec (orig : String) (vals : List String) :
    ∀ fuel t, (∃ k, k < fuel ∧ suffixLabel orig (t + k) ∉ vals) →
    ∃ j, (∀ i, i < j → suffixLabel orig (t + i) ∈ vals) ∧
      suffixLabel orig (t + j) ∉ vals ∧
      resolveCollisionGo orig vals fuel (suffixLabel orig t) (t + 1) =
        suffixLabel orig (t + j) := by
  intro fuel
  induction fuel with
  | zero => intro t ⟨k, hk, _⟩; omega
  | succ f ih =>
    intro t ⟨k, hk, hfree⟩
    by_cases hmem : suffixLabel orig t ∈ vals
    · have hkpos : k ≠ 0 := by
        intro h0; rw [h0, Nat.add_zero] at hfree; exact hfree hmem
      have : ∃ k', k' < f ∧ suffixLabel orig (t + 1 + k') ∉ vals := by
        refine ⟨k - 1, by omega, ?_⟩
        have : t + 1 + (k - 1) = t + k := by omega
        rwa [this]
      obtain ⟨j', hall', hfree', heq'⟩ := ih (t + 1) this
      refine ⟨j' + 1, ?_, ?_, ?_⟩
      · intro i hi
        cases i with
        | zero => simpa using hmem
        | succ i' =>
          have : t + (i' + 1) = t + 1 + i' := by omega
          rw [this]
          exact hall' i' (by omega)
      · have : t + (j' + 1) = t + 1 + j' := by omega
        rw [this]; exact hfree'
      · simp only [resolveCollisionGo, if_pos hmem]
        have ht : t + 1 + 1 = (t + 1) + 1 := rfl
        rw [show t + (j' + 1) = t + 1 + j' by omega]
        exact heq'
    · exact ⟨0, by omega, by simpa using hmem, by simp [resolveCollisionGo, hmem]⟩

theorem resolveCollision_spec (orig : String) (vals : List String)
    (hmem : orig ∈ vals) :
    ∃ n, 1 ≤ n ∧ resolveCollision orig vals = suffixLabel orig n ∧
      suffixLabel orig n ∉ vals ∧
      ∀ m, 1 ≤ m → m < n → suffixLabel orig m ∈ vals := by
  have hstep : resolveCollision orig vals =
      resolveCollisionGo orig vals (vals.length + 1) (suffixLabel orig 1) 2 := by
    show resolveCollisionGo orig vals (vals.length + 1 + 1) orig 1 = _
    simp [resolveCollisionGo, hmem]
  obtain ⟨k, hk, hfree⟩ := exists_fresh_suffix orig vals 1
  obtain ⟨j, hall, hfreej, heq⟩ :=
    resolveCollisionGo_spec orig vals (vals.length + 1) 1 ⟨k, hk, hfree⟩
  refine ⟨1 + j, by omega, ?_, hfreej, ?_⟩
  · rw [hstep]
    exact heq
  · intro m hm1 hmn
    have : m = 1 + (m - 1) := by omega
    rw [this]
    exact hall (m - 1) (by omega)

theorem resolveCollision_fresh (orig : String) (vals : List String) :
    resolveCollision orig vals ∉ vals := by
  by_cases hmem : orig ∈ vals
  · obtain ⟨n, _, heq, hfree, _⟩ := resolveCollision_spec orig vals hmem
    rw [heq]; exact hfree
  · have : resolveCollision orig vals = orig := by
      show resolveCollisionGo orig vals (vals.length + 1 + 1) orig 1 = orig
      simp [resolveCollisionGo, hmem]
    rw [this]; exact hmem

theorem anyKey_iff {α : Type} (d : List (String × α)) (k : String) :
    d.any (fun p => p.1 == k) = true ↔ k ∈ d.map Prod.fst := by
  constructor
  · intro hc
    rcases List.any_eq_true.mp hc with ⟨p, hp, hbeq⟩
    exact List.mem_map.mpr ⟨p, hp, beq_iff_eq.mp hbeq⟩
  · intro hm
    rcases List.mem_map.mp hm with ⟨p, hp, hfst⟩
    exact List.any_eq_true.mpr ⟨p, hp, beq_iff_eq.mpr hfst⟩

theorem dictSet_of_key_not_mem {α : Type} (d : List (String × α)) (k : String)
    (v : α) (h : k ∉ d.map Prod.fst) : dictSet d k v = d ++ [(k, v)] := by
  have : d.any (fun p => p.1 == k) = false := by
    rw [Bool.eq_false_iff]
    intro hc
    exact h ((anyKey_iff d k).mp hc)
  simp [dictSet, this]

theorem lookup_append_left {α : Type} (d d' : List (String × α)) (k : String)
    (h : k ∈ d.map Prod.fst) : List.lookup k (d ++ d') = List.lookup k d := by
  induction d with
  | nil => simp at h
  | cons p ps ih =>
    rcases p with ⟨k', v'⟩
    by_cases hk : k = k'
    · subst hk
      simp [List.lookup]
    · have hps : k ∈ ps.map Prod.fst := by
        simp only [List.map_cons, List.mem_cons] at h
        rcases h with h | h
        · exact absurd h hk
        · exact h
      have hbeq : (k == k') = false := by
        simp [hk]
      simp only [List.cons_append, List.lookup, hbeq]
      exact ih hps

theorem lookup_append_right {α : Type} (d d' : List (String × α)) (k : String)
    (h : k ∉ d.map Prod.fst) : List.lookup k (d ++ d') = List.lookup k d' := by
  induction d with
  | nil => simp
  | cons p ps ih =>
    rcases p with ⟨k', v'⟩
    have hk : k ≠ k' := by
      intro hkk
      exact h (by simp [hkk])
    have hps : k ∉ ps.map Prod.fst := by
      intro hm
      exact h (by simp [hm])
    have hbeq : (k == k') = false := by
      simp [hk]
    simp only [List.cons_append, List.lookup, hbeq]
    exact ih hps

theorem specName_injective : Function.Injective specName := by
  intro i j h
  have hd := congrArg String.data h
  simp only [specName, natStr, String.data_append] at hd
  exact natDigits_injective (List.append_cancel_left hd)

theorem resolveStep_valid (cat : Nat → Option String) (st : ResolverState)
    (i : Nat) (hInv : ResolverInv st)
    (hfresh : specName i ∉ st.specMapping.map Prod.fst)
    (hval : validLabelB (cat i) = true) :
    ∃ fl, fl ∉ st.specMapping.map Prod.snd ∧
      (resolveStep cat st i).specMapping = st.specMapping ++ [(specName i, fl)] ∧
      (resolveStep cat st i).duplicateLabels.map Prod.fst =
        st.duplicateLabels.map Prod.fst ++ [fl] ∧
      (st.duplicateLabels.any (fun p => p.1 == pyStrip ((cat i).getD "")) = false →
        fl = pyStrip ((cat i).getD "")) := by
  obtain ⟨hAlign, hNodup⟩ := hInv
  set cleanLabel := pyStrip ((cat i).getD "") with hclean
  by_cases hdup : st.duplicateLabels.any (fun p => p.1 == cleanLabel) = true
  · have hstep : resolveStep cat st i =
        { specMapping := dictSet st.specMapping (specName i)
            (resolveCollision cleanLabel (st.specMapping.map Prod.snd))
          duplicateLabels := dictSet st.duplicateLabels
            (resolveCollision cleanLabel (st.specMapping.map Prod.snd))
            (specName i) } := by
      simp only [resolveStep, if_pos hval, ← hclean]
      rw [if_pos hdup]
    refine ⟨resolveCollision cleanLabel (st.specMapping.map Prod.snd),
      resolveCollision_fresh _ _, ?_, ?_, ?_⟩
    · rw [hstep]
      exact dictSet_of_key_not_mem _ _ _ hfresh
    · rw [hstep]
      have hfl : resolveCollision cleanLabel (st.specMapping.map Prod.snd) ∉
          st.duplicateLabels.map Prod.fst := by
        rw [← hAlign]
        exact resolveCollision_fresh _ _
      rw [dictSet_of_key_not_mem _ _ _ hfl]
      simp
    · intro hcon
      rw [hcon] at hdup
      exact absurd hdup Bool.false_ne_true
  · have hstep : resolveStep cat st i =
        { specMapping := dictSet st.specMapping (specName i) cleanLabel
          duplicateLabels := dictSet st.duplicateLabels cleanLabel
            (specName i) } := by
      simp only [resolveStep, if_pos hval, ← hclean]
      rw [if_neg hdup]
    have hclean_fresh : cleanLabel ∉ st.specMapping.map Prod.snd := by
      rw [hAlign]
      intro hmem
      exact hdup ((anyKey_iff _ _).mpr hmem)
    refine ⟨cleanLabel, hclean_fresh, ?_, ?_, fun _ => rfl⟩
    · rw [hstep]
      exact dictSet_of_key_not_mem _ _ _ hfresh
    · rw [hstep]
      have hfl : cleanLabel ∉ st.duplicateLabels.map Prod.fst := by
        rw [← hAlign]
        exact hclean_fresh
      rw [dictSet_of_key_not_mem _ _ _ hfl]
      simp

theorem nodup_append_singleton {α : Type} (l : List α) (a : α)
    (hl : l.Nodup) (ha : a ∉ l) : (l ++ [a]).Nodup := by
  have hperm : (l ++ [a]).Perm (a :: l) := List.perm_append_comm
  exact hperm.nodup_iff.mpr (List.nodup_cons.mpr ⟨ha, hl⟩)

theorem foldl_resolveStep_spec (cat : Nat → Option String) :
    ∀ (l : List Nat) (st : ResolverState), ResolverInv st →
      (∀ i ∈ l, specName i ∉ st.specMapping.map Prod.fst) → l.Nodup →
      ResolverInv (l.foldl (resolveStep cat) st) ∧
      (l.foldl (resolveStep cat) st).specMapping.map Prod.fst =
        st.specMapping.map Prod.fst ++
          (l.filter (fun i => validLabelB (cat i))).map specName := by
  intro l
  induction l with
  | nil => intro st hInv _ _; exact ⟨hInv, by simp⟩
  | cons i l' ih =>
    intro st hInv hfresh hnodup
    by_cases hval : validLabelB (cat i) = true
    · obtain ⟨fl, hflFresh, hMapEq, hDupEq, _⟩ :=
        resolveStep_valid cat st i hInv (hfresh i (by simp)) hval
      set st' := resolveStep cat st i with hst'
      have hInv' : ResolverInv st' := by
        constructor
        · rw [hMapEq, hDupEq, List.map_append, hInv.1]
          simp
        · rw [hMapEq, List.map_append]
          simp only [List.map_cons, List.map_nil]
          exact nodup_append_singleton _ _ hInv.2 hflFresh
      have hfst' : st'.specMapping.map Prod.fst =
          st.specMapping.map Prod.fst ++ [specName i] := by
        rw [hMapEq, List.map_append]
        simp
      have hfresh' : ∀ j ∈ l', specName j ∉ st'.specMapping.map Prod.fst := by
        intro j hj
        rw [hfst']
        intro hmem
        rcases List.mem_append.mp hmem with hm | hm
        · exact hfresh j (by simp [hj]) hm
        · have hji : specName j = specName i := by simpa using hm
          have : j = i := specName_injective hji
          subst this
          exact (List.nodup_cons.mp hnodup).1 hj
      obtain ⟨hInvF, hfstF⟩ := ih st' hInv' hfresh' (List.nodup_cons.mp hnodup).2
      refine ⟨by simpa using hInvF, ?_⟩
      simp only [List.foldl_cons]
      rw [hfstF, hfst']
      simp [List.filter_cons, hval, List.append_assoc]
    · have hvalf : validLabelB (cat i) = false := Bool.eq_false_iff.mpr hval
      have hstep : resolveStep cat st i = st := by
        simp [resolveStep, hvalf]
      have hfresh' : ∀ j ∈ l', specName j ∉ st.specMapping.map Prod.fst :=
        fun j hj => hfresh j (by simp [hj])
      obtain ⟨hInvF, hfstF⟩ := ih st hInv hfresh' (List.nodup_cons.mp hnodup).2
      refine ⟨by simpa [hstep] using hInvF, ?_⟩
      simp only [List.foldl_cons, hstep]
      rw [hfstF]
      simp [List.filter_cons, hvalf]

theorem resolveLabels_values_nodup (cat : Nat → Option String) :
    ((resolveLabels cat).map Prod.snd).Nodup := by
  have := foldl_resolveStep_spec cat (List.range' 1 50) ⟨[], []⟩
    ⟨rfl, List.nodup_nil⟩ (by simp) (List.nodup_range' _ _)
  exact this.1.2

theorem resolveLabels_keys (cat : Nat → Option String) :
    (resolveLabels cat).map Prod.fst =
      ((List.range' 1 50).filter (fun i => validLabelB (cat i))).map specName := by
  have := foldl_resolveStep_spec cat (List.range' 1 50) ⟨[], []⟩
    ⟨rfl, List.nodup_nil⟩ (by simp) (List.nodup_range' _ _)
  simpa using this.2

theorem foldl_resolveStep_distinct (cat : Nat → Option String) :
    ∀ (l : List Nat) (st : ResolverState), ResolverInv st →
      (∀ i ∈ l, specName i ∉ st.specMapping.map Prod.fst) → l.Nodup →
      (st.specMapping.map Prod.snd ++
        (l.filter (fun i => validLabelB (cat i))).map
          (fun i => pyStrip ((cat i).getD ""))).Nodup →
      (l.foldl (resolveStep cat) st).specMapping =
        st.specMapping ++ (l.filter (fun i => validLabelB (cat i))).map
          (fun i => (specName i, pyStrip ((cat i).getD ""))) := by
  intro l
  induction l with
  | nil => intro st _ _ _ _; simp
  | cons i l' ih =>
    intro st hInv hfresh hnodup hdist
    by_cases hval : validLabelB (cat i) = true
    · have hdist' : (st.specMapping.map Prod.snd ++
          (pyStrip ((cat i).getD "") ::
            (l'.filter (fun j => validLabelB (cat j))).map
              (fun j => pyStrip ((cat j).getD "")))).Nodup := by
        simpa [List.filter_cons, hval] using hdist
      have hcleanNotOld : pyStrip ((cat i).getD "") ∉
          st.specMapping.map Prod.snd := by
        rcases List.nodup_append.mp hdist' with ⟨_, _, hdisj⟩
        intro hmem
        exact hdisj hmem (by simp)
      have hguard : st.duplicateLabels.any
          (fun p => p.1 == pyStrip ((cat i).getD "")) = false := by
        rw [Bool.eq_false_iff]
        intro hc
        exact hcleanNotOld (hInv.1 ▸ (anyKey_iff _ _).mp hc)
      obtain ⟨fl, hflFresh, hMapEq, hDupEq, hflClean⟩ :=
        resolveStep_valid cat st i hInv (hfresh i (by simp)) hval
      have hfl : fl = pyStrip ((cat i).getD "") := hflClean hguard
      subst hfl
      set st' := resolveStep cat st i with hst'
      have hInv' : ResolverInv st' := by
        constructor
        · rw [hMapEq, hDupEq, List.map_append, hInv.1]
          simp
        · rw [hMapEq, List.map_append]
          simp only [List.map_cons, List.map_nil]
          exact nodup_append_singleton _ _ hInv.2 hflFresh
      have hfst' : st'.specMapping.map Prod.fst =
          st.specMapping.map Prod.fst ++ [specName i] := by
        rw [hMapEq, List.map_append]
        simp
      have hfresh' : ∀ j ∈ l', specName j ∉ st'.specMapping.map Prod.fst := by
        intro j hj
        rw [hfst']
        intro hmem
        rcases List.mem_append.mp hmem with hm | hm
        · exact hfresh j (by simp [hj]) hm
        · have : j = i := specName_injective (by simpa using hm)
          subst this
          exact (List.nodup_cons.mp hnodup).1 hj
      have hdistIH : (st'.specMapping.map Prod.snd ++
          (l'.filter (fun j => validLabelB (cat j))).map
            (fun j => pyStrip ((cat j).getD ""))).Nodup := by
        have hvals' : st'.specMapping.map Prod.snd =
            st.specMapping.map Prod.snd ++ [pyStrip ((cat i).getD "")] := by
          rw [hMapEq, List.map_append]
          simp
        rw [hvals', List.append_assoc]
        simpa using hdist'
      have hIH := ih st' hInv' hfresh' (List.nodup_cons.mp hnodup).2 hdistIH
      simp only [List.foldl_cons]
      rw [hIH, hMapEq]
      simp [List.filter_cons, hval, List.append_assoc]
    · have hvalf : validLabelB (cat i) = false := Bool.eq_false_iff.mpr hval
      have hstep : resolveStep cat st i = st := by
        simp [resolveStep, hvalf]
      have hfresh' : ∀ j ∈ l', specName j ∉ st.specMapping.map Prod.fst :=
        fun j hj => hfresh j (by simp [hj])
      have hdist' : (st.specMapping.map Prod.snd ++
          (l'.filter (fun j => validLabelB (cat j))).map
            (fun j => pyStrip ((cat j).getD ""))).Nodup := by
        simpa [List.filter_cons, hvalf] using hdist
      have hIH := ih st hInv hfresh' (List.nodup_cons.mp hnodup).2 hdist'
      simp only [List.foldl_cons, hstep]
      rw [hIH]
      simp [List.filter_cons, hvalf]

/-- When the valid trimmed labels of a catalog row are pairwise distinct, the
    resolver performs no mutation: the mapping is exactly
    slot `i` → trimmed label, for the valid ordinals in ascending order. -/
theorem resolveLabels_of_distinct (cat : Nat → Option String)
    (hdist : (((List.range' 1 50).filter (fun i => validLabelB (cat i))).map
      (fun i => pyStrip ((cat i).getD ""))).Nodup) :
    resolveLabels cat =
      ((List.range' 1 50).filter (fun i => validLabelB (cat i))).map
        (fun i => (specName i, pyStrip ((cat i).getD ""))) := by
  have := foldl_resolveStep_distinct cat (List.range' 1 50) ⟨[], []⟩
    ⟨rfl, List.nodup_nil⟩ (by simp) (List.nodup_range' _ _) (by simpa using hdist)
  simpa using this

/-- C1: for every catalog row that assigns the same non-empty label to more
    than one populated slot, the resolved mapping has pairwise-distinct
    values; slots are walked in ascending ordinal order and a colliding
    candidate label is replaced by `label ++ " (n)"` for the smallest
    `n ≥ 1` that is not yet assigned; in particular, with
    `Specifications1 = Specifications2 = "Weight (kg)"` slot 2 resolves to
    `"Weight (kg) (1)"`. -/
theorem claim_C1 :
    (∀ cat : Nat → Option String,
      (∃ i ∈ List.range' 1 50, ∃ j ∈ List.range' 1 50, i ≠ j ∧
        validLabelB (cat i) = true ∧ validLabelB (cat j) = true ∧
        pyStrip ((cat i).getD "") = pyStrip ((cat j).getD "")) →
      ((resolveLabels cat).map Prod.snd).Nodup) ∧
    (∀ orig vals, orig ∈ vals →
      ∃ n, 1 ≤ n ∧ resolveCollision orig vals = suffixLabel orig n ∧
        suffixLabel orig n ∉ vals ∧
        ∀ m, 1 ≤ m → m < n → suffixLabel orig m ∈ vals) ∧
    List.lookup "Specifications2" (resolveLabels balerCatalog) =
      some "Weight (kg) (1)" := by
  refine ⟨fun cat _ => resolveLabels_values_nodup cat,
    fun orig vals hmem => resolveCollision_spec orig vals hmem, ?_⟩
  decide

theorem claim_C1_witness :
    ((resolveLabels balerCatalog).map Prod.snd).Nodup ∧
    (∃ n, 1 ≤ n ∧
      resolveCollision "Weight (kg)" ["Weight (kg)"] =
        suffixLabel "Weight (kg)" n ∧
      suffixLabel "Weight (kg)" n ∉ ["Weight (kg)"] ∧
      ∀ m, 1 ≤ m → m < n → suffixLabel "Weight (kg)" m ∈ ["Weight (kg)"]) :=
  ⟨claim_C1.1 balerCatalog
      ⟨1, by decide, 2, by decide, by decide, by decide, by decide, by decide⟩,
    claim_C1.2.1 "Weight (kg)" ["Weight (kg)"] (by decide)⟩

/-- C6 counterexample: the placeholder test of the fetcher is
    case-insensitive (it compares the stripped, upper-cased value against
    the text NULL), so the lower-case value `null` is
    excluded even though it is non-empty after trimming and differs from the
    literal `"NULL"`; and a collided label is stored with a suffix, not as
    the bare trimmed value.  Both refute the claimed inclusion iff. -/
theorem claim_C6_counterexample :
    pyStrip "null" ≠ "" ∧ pyStrip "null" ≠ "NULL" ∧
    nullAndDupCatalog 3 = some "null" ∧
    resolveLabels nullAndDupCatalog =
      [("Specifications1", "A"), ("Specifications2", "A (1)")] ∧
    ("Specifications3", "null") ∉ resolveLabels nullAndDupCatalog ∧
    ("Specifications2", "A") ∉ resolveLabels nullAndDupCatalog := by
  decide

/-- C6 as amended: a slot contributes an entry iff its value is non-null,
    non-empty after trimming and not, case-insensitively, the placeholder
    `NULL`; the keys are exactly those slots in ascending ordinal order; and
    when the valid trimmed labels are pairwise distinct each stored value
    is the trimmed catalog value. -/
theorem claim_C6 (cat : Nat → Option String) :
    ((resolveLabels cat).map Prod.fst =
      ((List.range' 1 50).filter (fun i => validLabelB (cat i))).map specName) ∧
    ((((List.range' 1 50).filter (fun i => validLabelB (cat i))).map
        (fun i => pyStrip ((cat i).getD ""))).Nodup →
      resolveLabels cat =
        ((List.range' 1 50).filter (fun i => validLabelB (cat i))).map
          (fun i => (specName i, pyStrip ((cat i).getD "")))) :=
  ⟨resolveLabels_keys cat, fun hdist => resolveLabels_of_distinct cat hdist⟩

theorem claim_C6_witness :
    resolveLabels distinctCatalog =
      [("Specifications1", "Weight (kg)"), ("Specifications2", "Power (kW)")] := by
  have h := (claim_C6 distinctCatalog).2 (by decide)
  rw [h]
  decide

theorem removeAllSpecColumns_prefixFree (df : PyDF) :
    ∀ c ∈ (removeAllSpecColumns df).colNames,
      pyStartsWith c "Specifications" = false := by
  intro c hc
  rcases List.mem_map.mp hc with ⟨p, hp, rfl⟩
  have := List.of_mem_filter hp
  simpa using this

theorem mem_uniqueFirstSeen (l : List String) (v : String) :
    v ∈ uniqueFirstSeen l ↔ v ∈ l := by
  have main : ∀ (l acc : List String),
      (v ∈ l.foldl (fun acc v => if v ∈ acc then acc else acc ++ [v]) acc ↔
        v ∈ l ∨ v ∈ acc) := by
    intro l
    induction l with
    | nil => intro acc; simp
    | cons x xs ih =>
      intro acc
      simp only [List.foldl_cons]
      by_cases hx : x ∈ acc
      · rw [if_pos hx, ih]
        constructor
        · rintro (h | h)
          · exact Or.inl (by simp [h])
          · exact Or.inr h
        · rintro (h | h)
          · rcases List.mem_cons.mp h with rfl | h
            · exact Or.inr hx
            · exact Or.inl h
          · exact Or.inr h
      · rw [if_neg hx, ih]
        constructor
        · rintro (h | h)
          · exact Or.inl (by simp [h])
          · rcases List.mem_append.mp h with h | h
            · exact Or.inr h
            · simp at h
              exact Or.inl (by simp [h])
        · rintro (h | h)
          · rcases List.mem_cons.mp h with rfl | h
            · exact Or.inr (by simp)
            · exact Or.inl h
          · exact Or.inr (by simp [h])
  have := main l []
  simpa using this

theorem mostFrequentType_ge (vals : List String) :
    ∀ (ts : List String) (t v : String), (v = t ∨ v ∈ ts) →
      vals.count v ≤ vals.count (mostFrequentType vals t ts) := by
  intro ts
  induction ts with
  | nil =>
    intro t v hv
    rcases hv with rfl | hv
    · simp [mostFrequentType]
    · simp at hv
  | cons u us ih =>
    intro t v hv
    have hstep : mostFrequentType vals t (u :: us) =
        mostFrequentType vals (if vals.count u > vals.count t then u else t)
          us := by
      simp [mostFrequentType]
    rw [hstep]
    set t' := if vals.count u > vals.count t then u else t with ht'
    have htle : vals.count t ≤ vals.count t' := by
      rw [ht']
      split <;> omega
    have hule : vals.count u ≤ vals.count t' := by
      rw [ht']
      split <;> omega
    rcases hv with rfl | hv
    · calc vals.count v ≤ vals.count t' := htle
        _ ≤ vals.count (mostFrequentType vals t' us) := ih t' t' (Or.inl rfl)
    · rcases List.mem_cons.mp hv with rfl | hv
      · calc vals.count v ≤ vals.count t' := hule
          _ ≤ vals.count (mostFrequentType vals t' us) := ih t' t' (Or.inl rfl)
      · exact ih t' v (Or.inr hv)

/-- C3 counterexample: with an empty mapping the code drops every column
    whose name merely starts with `Specifications`, including names that are
    none of the fifty canonical slot names; the claim would require
    `Specifications51` (a non-slot column) to be preserved unchanged. -/
theorem claim_C3_counterexample :
    (∀ i ∈ List.range' 1 50, specName i ≠ "Specifications51") ∧
    spec51DF.isEmpty = false ∧
    applyDynamicSpecLabels (fun _ => []) spec51DF (some "BALER") = ⟨[]⟩ ∧
    (⟨[]⟩ : PyDF) ≠ spec51DF := by
  decide

/-- C3 as amended: for every *nonempty* input frame the output of the label
    applier contains no column whose name starts with `Specifications`
    (whether canonical or not), and with an empty mapping exactly the
    `Specifications`-prefixed columns are stripped while every other column
    is kept with its values unchanged.  (An input with no rows is returned
    unchanged by the `df.empty` guard.) -/
theorem claim_C3 (gl : String → List (String × String)) (df : PyDF)
    (t : Option String) (hne : df.isEmpty = false) :
    (∀ c ∈ (applyDynamicSpecLabels gl df t).colNames,
      pyStartsWith c "Specifications" = false) ∧
    ((truthyStr t = false ∨ gl (t.getD "") = []) →
      (applyDynamicSpecLabels gl df t).cols =
        df.cols.filter (fun p => !pyStartsWith p.1 "Specifications")) := by
  constructor
  · intro c hc
    unfold applyDynamicSpecLabels at hc
    rw [if_neg (by simp [hne])] at hc
    by_cases ht : truthyStr t = true
    · rw [if_pos ht] at hc
      by_cases hl : (gl (t.getD "")).isEmpty
      · rw [if_neg (by simp [hl])] at hc
        exact removeAllSpecColumns_prefixFree df c hc
      · rw [if_pos (by simp [hl])] at hc
        exact removeAllSpecColumns_prefixFree _ c hc
    · rw [if_neg ht] at hc
      exact removeAllSpecColumns_prefixFree df c hc
  · intro hEmptyMap
    unfold applyDynamicSpecLabels
    rw [if_neg (by simp [hne])]
    rcases hEmptyMap with ht | hl
    · rw [if_neg (by simp [ht])]
      rfl
    · by_cases ht : truthyStr t = true
      · rw [if_pos ht, if_neg (by simp [hl])]
        rfl
      · rw [if_neg ht]
        rfl

theorem claim_C3_witness :
    (∀ c ∈ (applyDynamicSpecLabels demoGetLabels demoDF
        (some "BALER")).colNames,
      pyStartsWith c "Specifications" = false) ∧
    (applyDynamicSpecLabels demoGetLabels demoDF (none : Option String)).cols =
      demoDF.cols.filter (fun p => !pyStartsWith p.1 "Specifications") :=
  ⟨(claim_C3 demoGetLabels demoDF (some "BALER") (by decide)).1,
    (claim_C3 demoGetLabels demoDF none (by decide)).2 (Or.inl (by decide))⟩

/-- C4: the mixed-data reconciler delegates to the single-type applier when
    exactly one distinct non-null type is present; with several types it
    applies the mapping of a type of maximal frequency (ties broken
    deterministically — modelled as first-seen, matching the fold) uniformly;
    with no equipment-type data it strips all `Specifications` columns, the
    same effect as an empty mapping; and on the 7-vs-3 example it selects
    `A`. -/
theorem claim_C4 (gl : String → List (String × String)) (df : PyDF) :
    (∀ t, uniqueFirstSeen (dropNone (df.colValues "EquipmentType")) = [t] →
      df.isEmpty = false → df.hasCol "EquipmentType" = true →
      applyLabelsToMixedData gl df = applyDynamicSpecLabels gl df (some t)) ∧
    (∀ t u ts,
      uniqueFirstSeen (dropNone (df.colValues "EquipmentType")) = t :: u :: ts →
      df.isEmpty = false → df.hasCol "EquipmentType" = true →
      applyLabelsToMixedData gl df =
        applyDynamicSpecLabels gl df
          (some (mostFrequentType (dropNone (df.colValues "EquipmentType")) t
            (u :: ts))) ∧
      ∀ v ∈ dropNone (df.colValues "EquipmentType"),
        (dropNone (df.colValues "EquipmentType")).count v ≤
          (dropNone (df.colValues "EquipmentType")).count
            (mostFrequentType (dropNone (df.colValues "EquipmentType")) t
              (u :: ts))) ∧
    (dropNone (df.colValues "EquipmentType") = [] →
      applyLabelsToMixedData gl df = removeAllSpecColumns df) ∧
    applyLabelsToMixedData gl mixedTypeDF =
      applyDynamicSpecLabels gl mixedTypeDF (some "A") := by
  refine ⟨?_, ?_, ?_, ?_⟩
  · intro t huniq hne hcol
    unfold applyLabelsToMixedData
    rw [if_neg (by simp [hne, hcol]), huniq]
  · intro t u ts huniq hne hcol
    constructor
    · unfold applyLabelsToMixedData
      rw [if_neg (by simp [hne, hcol]), huniq]
    · intro v hv
      have hvu : v ∈ uniqueFirstSeen (dropNone (df.colValues "EquipmentType")) :=
        (mem_uniqueFirstSeen _ _).mpr hv
      rw [huniq] at hvu
      rcases List.mem_cons.mp hvu with rfl | hvu
      · exact mostFrequentType_ge _ (u :: ts) v v (Or.inl rfl)
      · exact mostFrequentType_ge _ (u :: ts) t v (Or.inr hvu)
  · intro hnone
    unfold applyLabelsToMixedData
    by_cases hguard : (df.isEmpty || !df.hasCol "EquipmentType") = true
    · rw [if_pos hguard]
    · rw [if_neg hguard, hnone]
      rfl
  · have huniq : uniqueFirstSeen (dropNone (mixedTypeDF.colValues
        "EquipmentType")) = ["A", "B"] := by decide
    unfold applyLabelsToMixedData
    rw [if_neg (by decide), huniq]
    have hmf : mostFrequentType (dropNone (mixedTypeDF.colValues
        "EquipmentType")) "A" ["B"] = "A" := by decide
    show applyDynamicSpecLabels gl mixedTypeDF
        (some (mostFrequentType (dropNone (mixedTypeDF.colValues
          "EquipmentType")) "A" ["B"])) =
      applyDynamicSpecLabels gl mixedTypeDF (some "A")
    rw [hmf]

theorem pyStartsWith_data (c p : String) (h : pyStartsWith c p = true) :
    c.data = p.data ++ c.data.drop p.data.length := by
  have htake : c.data.take p.data.length = p.data := by
    have := h
    unfold pyStartsWith at this
    exact beq_iff_eq.mp this
  conv_lhs => rw [← List.take_append_drop p.data.length c.data]
  rw [htake]

/-- The numbered-slot branch of the orderer is dead code: for every name with
    the `Specifications` prefix, the slice from character 13 on begins
    with the final letter s of the prefix, so the digit test is false. -/
theorem numberedSpecB_false (c : String) : numberedSpecB c = false := by
  unfold numberedSpecB
  by_cases hsw : pyStartsWith c "Specifications" = true
  · suffices h : pyIsDigit (pySliceFrom c 13) = false by simp [hsw, h]
    have hdata : c.data =
        ("Specifications" : String).data ++
          c.data.drop ("Specifications" : String).data.length :=
      pyStartsWith_data c "Specifications" hsw
    have h1 : List.drop 13 ("Specifications" : String).data = ['s'] := by
      decide
    have h2 : 13 - ("Specifications" : String).data.length = 0 := by
      decide
    have hdrop : (pySliceFrom c 13).data =
        's' :: c.data.drop ("Specifications" : String).data.length := by
      have hd0 : (pySliceFrom c 13).data = List.drop 13 c.data := rfl
      rw [hd0]
      conv_lhs => rw [hdata]
      rw [List.drop_append_eq_append_drop, h1, h2, List.drop_zero]
      rfl
    unfold pyIsDigit
    rw [hdrop]
    simp [List.all_cons]
  · have hsw' : pyStartsWith c "Specifications" = false :=
      Bool.eq_false_iff.mpr hsw
    simp [hsw']

theorem emptyNumbered (cols : List String) :
    (cols.filter specBucketB).filter numberedSpecB = [] := by
  rw [List.filter_eq_nil_iff]
  intro c _
  simp [numberedSpecB_false]

/-- Because the numbered branch is dead, the orderer is: surviving priority
    columns in hardcoded order, then all specification-bucket columns in
    lexicographic order, then system columns in lexicographic order. -/
theorem orderedColumnsForEditing_eq (cols : List String) :
    orderedColumnsForEditing cols =
      priorityColumns.filter (fun c => cols.contains c)
        ++ List.insertionSort pyStrLe (cols.filter specBucketB)
        ++ List.insertionSort pyStrLe (cols.filter sysBucketB) := by
  have hother : (cols.filter specBucketB).filter (fun c => !numberedSpecB c) =
      cols.filter specBucketB := by
    rw [List.filter_eq_self]
    intro c _
    simp [numberedSpecB_false]
  simp only [orderedColumnsForEditing]
  rw [emptyNumbered, hother]
  simp [List.insertionSort]

theorem priority_not_specBucket {c : String} (h : c ∈ priorityColumns) :
    specBucketB c = false := by
  have hc : priorityColumns.contains c = true := List.elem_iff.mpr h
  unfold specBucketB
  rw [hc]
  rfl

theorem priority_not_sysBucket {c : String} (h : c ∈ priorityColumns) :
    sysBucketB c = false := by
  have hc : priorityColumns.contains c = true := List.elem_iff.mpr h
  unfold sysBucketB
  rw [hc]
  rfl

theorem specBucket_not_sys {c : String} (h : specBucketB c = true) :
    sysBucketB c = false := by
  unfold specBucketB at h
  unfold sysBucketB
  simp only [Bool.and_eq_true, Bool.or_eq_true, Bool.not_eq_true'] at h
  rcases h with ⟨hp, hsw | hsys⟩
  · rw [hp, hsw]
    rfl
  · rw [hp, hsys]
    rw [Bool.and_false]

theorem sysBucket_not_spec {c : String} (h : sysBucketB c = true) :
    specBucketB c = false := by
  unfold sysBucketB at h
  unfold specBucketB
  simp only [Bool.and_eq_true, Bool.not_eq_true'] at h
  rcases h with ⟨⟨hp, hsw⟩, hsys⟩
  rw [hp, hsw, hsys]
  rfl

/-- C5 counterexample: on input
    `[Specifications2, Specifications10, Notes, EquipmentKey]` the claim
    predicts `[Specifications2, Specifications10, Notes, EquipmentKey]`
    (canonical slots in ascending numeric order, then system columns in
    hardcoded order), but the code produces the alphabetical order
    `[Specifications10, Specifications2, EquipmentKey, Notes]`: the numeric
    branch never fires (`col[13:]` starts with the letter `s`) and system
    columns are sorted alphabetically. -/
theorem claim_C5_counterexample :
    orderedColumnsForEditing
        ["Specifications2", "Specifications10", "Notes", "EquipmentKey"] =
      ["Specifications10", "Specifications2", "EquipmentKey", "Notes"] ∧
    (["Specifications10", "Specifications2", "EquipmentKey", "Notes"] :
        List String) ≠
      ["Specifications2", "Specifications10", "Notes", "EquipmentKey"] := by
  decide

/-- C5 as amended: the orderer outputs the fixed business-field names first
    in their hardcoded relative order filtered to the columns present, then
    all specification-ish columns (canonical slot names and labels alike) in
    lexicographic order, then the audit/system names in lexicographic order
    — the numeric-ordinal tier is dead code because the slice `col[13:]`
    begins inside the 14-character prefix. -/
theorem claim_C5 (cols : List String) :
    ∃ specPart sysPart,
      orderedColumnsForEditing cols =
        priorityColumns.filter (fun c => cols.contains c) ++ specPart ++
          sysPart ∧
      specPart.Perm (cols.filter specBucketB) ∧
      List.Sorted pyStrLe specPart ∧
      sysPart.Perm (cols.filter sysBucketB) ∧
      List.Sorted pyStrLe sysPart :=
  ⟨List.insertionSort pyStrLe (cols.filter specBucketB),
    List.insertionSort pyStrLe (cols.filter sysBucketB),
    orderedColumnsForEditing_eq cols,
    List.perm_insertionSort _ _,
    List.sorted_insertionSort _ _,
    List.perm_insertionSort _ _,
    List.sorted_insertionSort _ _⟩

theorem lookup_eq_none_of_not_mem {α : Type} {d : List (String × α)}
    {k : String} (h : k ∉ d.map Prod.fst) : List.lookup k d = none := by
  induction d with
  | nil => rfl
  | cons p ps ih =>
    have hk : k ≠ p.1 := fun hkk => h (by simp [hkk])
    have hps : k ∉ ps.map Prod.fst := fun hm => h (by simp [hm])
    have hbeq : (k == p.1) = false := by simp [hk]
    simp only [List.lookup, hbeq]
    exact ih hps

theorem lookup_map_update {α : Type} (d : List (String × α)) (k : String)
    (v : α) (h : k ∈ d.map Prod.fst) :
    List.lookup k (d.map (fun p => bif p.1 == k then (k, v) else p)) =
      some v := by
  induction d with
  | nil => simp at h
  | cons p ps ih =>
    rcases p with ⟨pk, pv⟩
    by_cases hk : pk = k
    · have hbeq : (pk == k) = true := by simp [hk]
      simp only [List.map_cons, hbeq, cond_true]
      simp [List.lookup]
    · have hbeq : (pk == k) = false := by simp [hk]
      have hbeq2 : (k == pk) = false := by simp [Ne.symm hk]
      have hps : k ∈ ps.map Prod.fst := by
        simp only [List.map_cons, List.mem_cons] at h
        rcases h with h | h
        · exact absurd h.symm hk
        · exact h
      simp only [List.map_cons, hbeq, cond_false, List.lookup, hbeq2]
      exact ih hps

theorem lookup_dictSet_self {α : Type} (d : List (String × α)) (k : String)
    (v : α) : List.lookup k (dictSet d k v) = some v := by
  unfold dictSet
  by_cases h : d.any (fun p => p.1 == k) = true
  · rw [if_pos h]
    exact lookup_map_update d k v ((anyKey_iff d k).mp h)
  · rw [if_neg h]
    have hnm : k ∉ d.map Prod.fst := fun hm => h ((anyKey_iff d k).mpr hm)
    rw [lookup_append_right d _ k hnm]
    simp [List.lookup]

theorem lookup_map_update_ne {α : Type} (d : List (String × α))
    (k k' : String) (v : α) (h : k ≠ k') :
    List.lookup k (d.map (fun p => bif p.1 == k' then (k', v) else p)) =
      List.lookup k d := by
  induction d with
  | nil => rfl
  | cons p ps ih =>
    rcases p with ⟨pk, pv⟩
    by_cases hp : pk = k'
    · have hbeq : (pk == k') = true := by simp [hp]
      have hk1 : (k == k') = false := by simp [h]
      have hk2 : (k == pk) = false := by simp [hp, h]
      simp only [List.map_cons, hbeq, cond_true, List.lookup, hk1, hk2]
      exact ih
    · have hbeq : (pk == k') = false := by simp [hp]
      simp only [List.map_cons, hbeq, cond_false, List.lookup]
      by_cases hkp : k = pk
      · have hb : (k == pk) = true := by simp [hkp]
        simp [hb]
      · have hb : (k == pk) = false := by simp [hkp]
        simp only [hb]
        exact ih

theorem lookup_dictSet_ne {α : Type} (d : List (String × α)) (k k' : String)
    (v : α) (h : k ≠ k') : List.lookup k (dictSet d k' v) = List.lookup k d := by
  unfold dictSet
  by_cases hany : d.any (fun p => p.1 == k') = true
  · rw [if_pos hany]
    exact lookup_map_update_ne d k k' v h
  · rw [if_neg hany]
    by_cases hmem : k ∈ d.map Prod.fst
    · rw [lookup_append_left d _ k hmem]
    · rw [lookup_append_right d _ k hmem, lookup_eq_none_of_not_mem hmem]
      have hb : (k == k') = false := by simp [h]
      simp [List.lookup, hb]

/-- C8: the record written for a saved row carries a RecordHistory formed by
    appending the new timestamped entry (`Created by` for new rows,
    `Modified by` for modified rows) to the existing history of the row,
    newline-separated when the history is nonempty; the prior history is
    always a prefix of the stored value, so it is never overwritten or
    lost. -/
theorem claim_C8 (displayColumns specLabels : List String)
    (sessionGet : String → String) (rowDict : List (String × Cell))
    (isNew : Bool) (ts user : String) :
    List.lookup "RecordHistory"
        (buildRecord displayColumns specLabels sessionGet rowDict isNew ts
          user) =
      some (some
        (if existingHistory rowDict = "" then historyEntry isNew ts user
          else existingHistory rowDict ++ "\n" ++
            historyEntry isNew ts user)) ∧
    ∃ tail,
      (if existingHistory rowDict = "" then historyEntry isNew ts user
        else existingHistory rowDict ++ "\n" ++ historyEntry isNew ts user) =
        existingHistory rowDict ++ tail := by
  constructor
  · simp only [buildRecord, addRecordHistory]
    by_cases h : existingHistory rowDict = ""
    · have hb : (existingHistory rowDict != "") = false := by simp [h]
      rw [hb]
      simp only [Bool.false_eq_true, if_false, if_pos h]
      exact lookup_dictSet_self _ _ _
    · have hb : (existingHistory rowDict != "") = true := by simp [h]
      rw [hb]
      simp only [if_true, if_neg h]
      exact lookup_dictSet_self _ _ _
  · by_cases h : existingHistory rowDict = ""
    · refine ⟨historyEntry isNew ts user, ?_⟩
      rw [if_pos h, h]
      rfl
    · refine ⟨"\n" ++ historyEntry isNew ts user, ?_⟩
      rw [if_neg h, String.append_assoc]

theorem saveChangesLoop_aux (displayColumns : List String)
    (persist : Nat → List (String × Cell) → Except String Unit) :
    ∀ (rows : List (Nat × List (String × Cell))) (acc : Nat × List String),
      rows.foldl
        (fun acc r =>
          if rowIsBlank displayColumns r.2 then acc
          else
            match persist r.1 r.2 with
            | Except.ok _ => (acc.1 + 1, acc.2)
            | Except.error e =>
              (acc.1, acc.2 ++ ["Row " ++ natStr (r.1 + 1) ++ ": " ++ e]))
        acc =
      (acc.1 +
        (rows.filter (fun r => !rowIsBlank displayColumns r.2 &&
          isOkE (persist r.1 r.2))).length,
       acc.2 ++
        (rows.filter (fun r => !rowIsBlank displayColumns r.2 &&
          !isOkE (persist r.1 r.2))).map
          (fun r => "Row " ++ natStr (r.1 + 1) ++ ": " ++
            errOfE (persist r.1 r.2))) := by
  intro rows
  induction rows with
  | nil => intro acc; simp
  | cons r rest ih =>
    intro acc
    simp only [List.foldl_cons]
    by_cases hb : rowIsBlank displayColumns r.2 = true
    · rw [if_pos hb, ih]
      have h1 : (!rowIsBlank displayColumns r.2 &&
          isOkE (persist r.1 r.2)) = false := by simp [hb]
      have h2 : (!rowIsBlank displayColumns r.2 &&
          !isOkE (persist r.1 r.2)) = false := by simp [hb]
      simp [List.filter_cons, h1, h2]
    · rw [if_neg hb]
      have hbf : rowIsBlank displayColumns r.2 = false :=
        Bool.eq_false_iff.mpr hb
      cases hok : persist r.1 r.2 with
      | ok u =>
        rw [ih]
        have h1 : (!rowIsBlank displayColumns r.2 &&
            isOkE (persist r.1 r.2)) = true := by simp [hbf, hok, isOkE]
        have h2 : (!rowIsBlank displayColumns r.2 &&
            !isOkE (persist r.1 r.2)) = false := by simp [hbf, hok, isOkE]
        simp only [List.filter_cons, h1, h2, if_true, Bool.false_eq_true,
          if_false, List.length_cons, Prod.mk.injEq]
        constructor
        · omega
        · trivial
      | error e =>
        rw [ih]
        have h1 : (!rowIsBlank displayColumns r.2 &&
            isOkE (persist r.1 r.2)) = false := by simp [hbf, hok, isOkE]
        have h2 : (!rowIsBlank displayColumns r.2 &&
            !isOkE (persist r.1 r.2)) = true := by simp [hbf, hok, isOkE]
        simp only [List.filter_cons, h1, h2, if_true, Bool.false_eq_true,
          if_false, List.map_cons, Prod.mk.injEq]
        constructor
        · trivial
        · rw [hok]
          simp [errOfE, List.append_assoc]

/-- C9: a failing row does not abort the batch.  The success count is
    exactly the number of processed (non-blank) rows whose persistence
    succeeded, and the error list has exactly one `Row {idx+1}: ...` entry
    per processed row whose persistence failed, in order; in particular a
    5-row batch whose third row fails commits the other four and reports the
    single error `Row 3: type coercion error`. -/
theorem claim_C9 (displayColumns : List String)
    (persist : Nat → List (String × Cell) → Except String Unit)
    (rows : List (Nat × List (String × Cell))) :
    (saveChangesLoop displayColumns persist rows).1 =
      (rows.filter (fun r => !rowIsBlank displayColumns r.2 &&
        isOkE (persist r.1 r.2))).length ∧
    (saveChangesLoop displayColumns persist rows).2 =
      (rows.filter (fun r => !rowIsBlank displayColumns r.2 &&
        !isOkE (persist r.1 r.2))).map
        (fun r => "Row " ++ natStr (r.1 + 1) ++ ": " ++
          errOfE (persist r.1 r.2)) ∧
    (saveChangesLoop displayColumns persist rows).2.length =
      (rows.filter (fun r => !rowIsBlank displayColumns r.2 &&
        !isOkE (persist r.1 r.2))).length ∧
    saveChangesLoop managerBaseColumns scenarioPersist scenarioRows =
      (4, ["Row 3: type coercion error"]) := by
  have hmain := saveChangesLoop_aux displayColumns persist rows (0, [])
  unfold saveChangesLoop
  rw [hmain]
  refine ⟨by simp, by simp, by simp, ?_⟩
  decide

theorem any_congr {α : Type} {l : List α} {f g : α → Bool}
    (h : ∀ a ∈ l, f a = g a) : l.any f = l.any g := by
  induction l with
  | nil => rfl
  | cons a as ih =>
    simp only [List.any_cons]
    rw [h a (by simp), ih (fun a ha => h a (by simp [ha]))]

/-- C10 counterexample: two rows that agree on every column of
    `SQL_COLUMN_ORDER` but differ on `RowID` hash equally, yet are
    classified differently — one as new (its id starts with `NEW_`), the
    other as modified — so classification is not insensitive to the
    non-SQL columns. -/
theorem claim_C10_counterexample :
    (∀ c ∈ sqlColumnOrder,
      List.lookup c c10rowNew = List.lookup c c10rowExisting) ∧
    getRowHash c10rowNew = getRowHash c10rowExisting ∧
    classifyRow [] c10rowNew = RowClass.newRow ∧
    classifyRow [] c10rowExisting = RowClass.modifiedRow ∧
    RowClass.newRow ≠ RowClass.modifiedRow := by
  decide

/-- C10 as amended: the row hash depends only on the `SQL_COLUMN_ORDER`
    columns, so rows agreeing there hash equally; and if such rows also
    agree on `RowID`, `_detect_changes` classifies them identically.
    Moreover a non-blank existing row whose stored original hash matches its
    current hash (for example a row edited only in relabeled specification
    columns) is classified unchanged, not modified. -/
theorem claim_C10 (r1 r2 : List (String × Cell))
    (store : List (String × List (String × String)))
    (hagree : ∀ c ∈ sqlColumnOrder, List.lookup c r1 = List.lookup c r2) :
    getRowHash r1 = getRowHash r2 ∧
    (List.lookup "RowID" r1 = List.lookup "RowID" r2 →
      classifyRow store r1 = classifyRow store r2) ∧
    (List.lookup (rowIdOf r1) store = some (getRowHash r2) →
      pyStartsWith (rowIdOf r1) "NEW_" = false →
      (sqlColumnOrder.any
        (fun col => pyStrip (cellStr (pyGet r1 col)) != "")) = true →
      classifyRow store r1 = RowClass.unchanged) := by
  have hcell : ∀ c ∈ sqlColumnOrder, pyGet r1 c = pyGet r2 c := by
    intro c hc
    unfold pyGet
    rw [hagree c hc]
  have hhash : getRowHash r1 = getRowHash r2 := by
    unfold getRowHash
    congr 1
    apply List.map_congr_left
    intro c hc
    rw [hcell c hc]
  refine ⟨hhash, ?_, ?_⟩
  · intro hid
    have hidOf : rowIdOf r1 = rowIdOf r2 := by
      unfold rowIdOf pyGet
      rw [hid]
    have hany : (sqlColumnOrder.any
        (fun col => pyStrip (cellStr (pyGet r1 col)) != "")) =
        (sqlColumnOrder.any
          (fun col => pyStrip (cellStr (pyGet r2 col)) != "")) := by
      apply any_congr
      intro c hc
      rw [hcell c hc]
    unfold classifyRow
    rw [hany, hidOf, hhash]
  · intro hstore hnew hnonblank
    unfold classifyRow
    rw [hnonblank, hnew, hstore]
    simp [hhash]

theorem claim_C10_witness :
    getRowHash c10rowA = getRowHash c10rowB ∧
    classifyRow [] c10rowA = classifyRow [] c10rowB ∧
    classifyRow [("R1", getRowHash c10rowB)] c10rowA =
      RowClass.unchanged :=
  ⟨(claim_C10 c10rowA c10rowB [] (by decide)).1,
    (claim_C10 c10rowA c10rowB [] (by decide)).2.1 (by decide),
    (claim_C10 c10rowA c10rowB [("R1", getRowHash c10rowB)]
      (by decide)).2.2 (by decide) (by decide) (by decide)⟩

theorem specName_startsWith (i : Nat) :
    pyStartsWith (specName i) "Specifications" = true := by
  unfold pyStartsWith
  have hdata : (specName i).data =
      ("Specifications" : String).data ++ natDigits i := by
    simp [specName, natStr, String.data_append]
  rw [hdata, List.take_left]
  simp

theorem specName_ne_of_prefixFree {c : String}
    (h : pyStartsWith c "Specifications" = false) (n : Nat) :
    specName n ≠ c := by
  intro he
  rw [← he, specName_startsWith n] at h
  cases h

theorem fetchSpecLabelsAux_eq (labels : List String) :
    ∀ (i : Nat) (acc : List (String × String)), labels.Nodup →
      (∀ l ∈ labels, l ∉ acc.map Prod.fst) →
      fetchSpecLabelsAux labels i acc = acc ++ labelPairs labels i := by
  induction labels with
  | nil =>
    intro i acc _ _
    simp [fetchSpecLabelsAux, labelPairs]
  | cons l ls ih =>
    intro i acc hnd hfresh
    simp only [fetchSpecLabelsAux, labelPairs]
    rw [dictSet_of_key_not_mem _ _ _ (hfresh l (by simp))]
    rw [ih (i + 1) _ (List.nodup_cons.mp hnd).2 ?_]
    · rw [List.append_assoc]
      rfl
    · intro l' hl'
      rw [List.map_append]
      intro hmem
      rcases List.mem_append.mp hmem with hm | hm
      · exact hfresh l' (by simp [hl']) hm
      · have : l' = l := by simpa using hm
        subst this
        exact (List.nodup_cons.mp hnd).1 hl'

theorem fetchSpecificationLabels_eq (labels : List String)
    (h : labels.Nodup) :
    fetchSpecificationLabels labels = labelPairs labels 1 := by
  unfold fetchSpecificationLabels
  rw [fetchSpecLabelsAux_eq labels 1 [] h (by simp)]
  rfl

theorem labelPairs_map_fst (labels : List String) :
    ∀ i, (labelPairs labels i).map Prod.fst = labels := by
  induction labels with
  | nil => intro i; rfl
  | cons l ls ih =>
    intro i
    simp only [labelPairs, List.map_cons, ih]

theorem lookup_labelPairs (labels : List String) :
    ∀ (i j : Nat) (hj : j < labels.length), labels.Nodup →
      List.lookup (labels.get ⟨j, hj⟩) (labelPairs labels i) =
        some (specName (i + j)) := by
  induction labels with
  | nil =>
    intro i j hj
    simp at hj
  | cons l ls ih =>
    intro i j hj hnd
    cases j with
    | zero =>
      simp [labelPairs, List.lookup]
    | succ j' =>
      have hj' : j' < ls.length := by simpa using hj
      have hget : (l :: ls).get ⟨j' + 1, hj⟩ = ls.get ⟨j', hj'⟩ :=
        List.get_cons_succ
      have hne : (l :: ls).get ⟨j' + 1, hj⟩ ≠ l := by
        rw [hget]
        intro he
        exact (List.nodup_cons.mp hnd).1 (he ▸ List.get_mem ls j' hj')
      have hbeq : ((l :: ls).get ⟨j' + 1, hj⟩ == l) = false :=
        beq_eq_false_iff_ne.mpr hne
      simp only [labelPairs, List.lookup, hbeq]
      rw [hget, ih (i + 1) j' hj' (List.nodup_cons.mp hnd).2]
      have harith : i + 1 + j' = i + (j' + 1) := by omega
      rw [harith]

theorem lookup_foldl_dictSet (cols : List String) (f : String → Cell) :
    ∀ (init : List (String × Cell)) (k : String),
      List.lookup k (cols.foldl (fun g c => dictSet g c (f c)) init) =
        if k ∈ cols then some (f k) else List.lookup k init := by
  induction cols with
  | nil =>
    intro init k
    simp
  | cons c cs ih =>
    intro init k
    simp only [List.foldl_cons]
    rw [ih]
    by_cases hin : k ∈ cs
    · rw [if_pos hin, if_pos (by simp [hin])]
    · rw [if_neg hin]
      by_cases hkc : k = c
      · subst hkc
        rw [if_pos (by simp), lookup_dictSet_self]
      · rw [if_neg (by simp [hkc, hin]), lookup_dictSet_ne _ _ _ _ hkc]

theorem buildRecordCore_step_eq (specLabels : List String)
    (sessionGet : String → String) (rowDict : List (String × Cell))
    (record : List (String × Cell)) (col : String) :
    (if fixedFields.contains col then
        dictSet record col (some (sessionGet col))
      else if sqlColumnOrder.contains col then
        dictSet record col (normalizeCell (pyGet rowDict col))
      else if specLabels.contains col then
        dictSet record (specName (specLabels.indexOf col + 1))
          (normalizeCell (pyGet rowDict col))
      else record) =
    (match writtenKey specLabels col with
      | some key => dictSet record key
          (writtenVal specLabels sessionGet rowDict col)
      | none => record) := by
  unfold writtenKey writtenVal
  by_cases h1 : fixedFields.contains col = true
  · rw [if_pos h1, if_pos h1, if_pos h1]
  · rw [if_neg h1, if_neg h1, if_neg h1]
    by_cases h2 : sqlColumnOrder.contains col = true
    · rw [if_pos h2, if_pos h2]
    · rw [if_neg h2, if_neg h2]
      by_cases h3 : specLabels.contains col = true
      · rw [if_pos h3, if_pos h3]
      · rw [if_neg h3, if_neg h3]

theorem lookup_recordFold_unwritten (specLabels : List String)
    (sessionGet : String → String) (rowDict : List (String × Cell)) :
    ∀ (cols : List String) (record : List (String × Cell)) (k : String),
      (∀ col ∈ cols, writtenKey specLabels col ≠ some k) →
      List.lookup k (cols.foldl
        (fun record col =>
          if fixedFields.contains col then
            dictSet record col (some (sessionGet col))
          else if sqlColumnOrder.contains col then
            dictSet record col (normalizeCell (pyGet rowDict col))
          else if specLabels.contains col then
            dictSet record (specName (specLabels.indexOf col + 1))
              (normalizeCell (pyGet rowDict col))
          else record) record) = List.lookup k record := by
  intro cols
  induction cols with
  | nil =>
    intro record k _
    rfl
  | cons c cs ih =>
    intro record k hunw
    simp only [List.foldl_cons]
    rw [buildRecordCore_step_eq]
    cases hwk : writtenKey specLabels c with
    | none =>
      exact ih record k (fun col hc => hunw col (by simp [hc]))
    | some key =>
      have hne : k ≠ key := by
        intro he
        exact hunw c (by simp) (by rw [hwk, he])
      rw [ih _ k (fun col hc => hunw col (by simp [hc])),
        lookup_dictSet_ne _ _ _ _ hne]

theorem baseEnd_contains_sql :
    ∀ c ∈ managerBaseColumns ++ managerEndColumns,
      sqlColumnOrder.contains c = true := by
  decide

theorem baseEnd_prefixFree :
    ∀ c ∈ managerBaseColumns ++ managerEndColumns,
      pyStartsWith c "Specifications" = false := by
  decide

theorem lookup_buildRecordCore_label (labels : List String)
    (hnd : labels.Nodup)
    (hfree : ∀ l ∈ labels, fixedFields.contains l = false ∧
      sqlColumnOrder.contains l = false)
    (j : Nat) (hj : j < labels.length)
    (sessionGet : String → String) (rowDict : List (String × Cell)) :
    List.lookup (specName (j + 1))
        (buildRecordCore (managerBaseColumns ++ labels ++ managerEndColumns)
          labels sessionGet rowDict) =
      some (normalizeCell (pyGet rowDict (labels.get ⟨j, hj⟩))) := by
  have hsplit : labels = labels.take j ++ labels.get ⟨j, hj⟩ ::
      labels.drop (j + 1) := by
    conv_lhs => rw [← List.take_append_drop j labels]
    rw [List.drop_eq_get_cons hj]
  have hndSplit : (labels.take j ++ labels.get ⟨j, hj⟩ ::
      labels.drop (j + 1)).Nodup := hsplit ▸ hnd
  rcases List.nodup_append.mp hndSplit with ⟨hndTake, hndCons, hdisj⟩
  have htgtTake : labels.get ⟨j, hj⟩ ∉ labels.take j := by
    intro hmem
    exact hdisj hmem (List.mem_cons_self _ _)
  have htgtDrop : labels.get ⟨j, hj⟩ ∉ labels.drop (j + 1) :=
    (List.nodup_cons.mp hndCons).1
  have hidx : labels.indexOf (labels.get ⟨j, hj⟩) = j :=
    List.get_indexOf hnd ⟨j, hj⟩
  have hBaseEndKey : ∀ col ∈ managerBaseColumns ++ managerEndColumns,
      writtenKey labels col ≠ some (specName (j + 1)) := by
    intro col hcol
    have hkey : writtenKey labels col = some col := by
      unfold writtenKey
      by_cases h1 : fixedFields.contains col = true
      · rw [if_pos h1]
      · rw [if_neg h1, if_pos (baseEnd_contains_sql col hcol)]
    rw [hkey]
    intro he
    exact specName_ne_of_prefixFree (baseEnd_prefixFree col hcol) (j + 1)
      (Option.some.inj he).symm
  have hLabelKey : ∀ col ∈ labels, col ≠ labels.get ⟨j, hj⟩ →
      writtenKey labels col ≠ some (specName (j + 1)) := by
    intro col hcol hne
    have hfix : ¬ (fixedFields.contains col = true) := by
      intro hc
      rw [(hfree col hcol).1] at hc
      exact Bool.false_ne_true hc
    have hsql : ¬ (sqlColumnOrder.contains col = true) := by
      intro hc
      rw [(hfree col hcol).2] at hc
      exact Bool.false_ne_true hc
    have hkey : writtenKey labels col =
        some (specName (labels.indexOf col + 1)) := by
      unfold writtenKey
      rw [if_neg hfix, if_neg hsql, if_pos (List.elem_iff.mpr hcol)]
    rw [hkey]
    intro he
    have hinj : labels.indexOf col + 1 = j + 1 :=
      specName_injective (Option.some.inj he)
    have hieq : labels.indexOf col = j := by omega
    apply hne
    have hlt : labels.indexOf col < labels.length := by
      rw [hieq]; exact hj
    have hfin : (⟨labels.indexOf col, hlt⟩ : Fin labels.length) = ⟨j, hj⟩ :=
      Fin.ext hieq
    calc col = labels.get ⟨labels.indexOf col, hlt⟩ :=
          (List.indexOf_get hlt).symm
      _ = labels.get ⟨j, hj⟩ := by rw [hfin]
  have hPre : ∀ col ∈ managerBaseColumns ++ labels.take j,
      writtenKey labels col ≠ some (specName (j + 1)) := by
    intro col hcol
    rcases List.mem_append.mp hcol with hm | hm
    · exact hBaseEndKey col (List.mem_append.mpr (Or.inl hm))
    · refine hLabelKey col (List.take_subset j labels hm) ?_
      intro he
      exact htgtTake (he ▸ hm)
  have hPost : ∀ col ∈ labels.drop (j + 1) ++ managerEndColumns,
      writtenKey labels col ≠ some (specName (j + 1)) := by
    intro col hcol
    rcases List.mem_append.mp hcol with hm | hm
    · refine hLabelKey col (List.drop_subset (j + 1) labels hm) ?_
      intro he
      exact htgtDrop (he ▸ hm)
    · exact hBaseEndKey col (List.mem_append.mpr (Or.inr hm))
  have hTgtKey : writtenKey labels (labels.get ⟨j, hj⟩) =
      some (specName (j + 1)) := by
    have hmem : labels.get ⟨j, hj⟩ ∈ labels := List.get_mem labels j hj
    have hfix : ¬ (fixedFields.contains (labels.get ⟨j, hj⟩) = true) := by
      intro hc
      rw [(hfree _ hmem).1] at hc
      exact Bool.false_ne_true hc
    have hsql : ¬ (sqlColumnOrder.contains (labels.get ⟨j, hj⟩) = true) := by
      intro hc
      rw [(hfree _ hmem).2] at hc
      exact Bool.false_ne_true hc
    unfold writtenKey
    rw [if_neg hfix, if_neg hsql, if_pos (List.elem_iff.mpr hmem), hidx]
  have hcols : managerBaseColumns ++ labels ++ managerEndColumns =
      (managerBaseColumns ++ labels.take j) ++ labels.get ⟨j, hj⟩ ::
        (labels.drop (j + 1) ++ managerEndColumns) := by
    conv_lhs => rw [hsplit]
    simp only [List.append_assoc, List.cons_append]
  unfold buildRecordCore
  rw [hcols, List.foldl_append, List.foldl_cons]
  rw [lookup_recordFold_unwritten labels sessionGet rowDict _ _ _ hPost]
  rw [buildRecordCore_step_eq, hTgtKey]
  rw [lookup_dictSet_self]
  unfold writtenVal
  have hmem : labels.get ⟨j, hj⟩ ∈ labels := List.get_mem labels j hj
  have hfix : ¬ (fixedFields.contains (labels.get ⟨j, hj⟩) = true) := by
    intro hc
    rw [(hfree _ hmem).1] at hc
    exact Bool.false_ne_true hc
  rw [if_neg hfix]

theorem lookup_buildGridRow_label (labels : List String) (hnd : labels.Nodup)
    (j : Nat) (hj : j < labels.length) (statusStr rowId : String)
    (dbRow : List (String × Cell)) :
    List.lookup (labels.get ⟨j, hj⟩)
        (buildGridRow labels statusStr rowId dbRow) =
      some (gridCell dbRow (specName (j + 1))) := by
  have hne : labels ≠ [] := by
    intro h
    rw [h] at hj
    simp at hj
  have hfetch : fetchSpecificationLabels labels = labelPairs labels 1 :=
    fetchSpecificationLabels_eq labels hnd
  have hkeys : (fetchSpecificationLabels labels).map Prod.fst = labels := by
    rw [hfetch, labelPairs_map_fst]
  have hfne : fetchSpecificationLabels labels ≠ [] := by
    intro h0
    apply hne
    rw [← hkeys, h0]
    rfl
  have hnonempty : (fetchSpecificationLabels labels).isEmpty = false := by
    rcases hfetch0 : fetchSpecificationLabels labels with _ | ⟨p, ps⟩
    · exact absurd hfetch0 hfne
    · rfl
  have hdisp : managerDisplayColumns labels =
      managerBaseColumns ++ labels ++ managerEndColumns := by
    simp only [managerDisplayColumns, getDynamicColumns]
    rw [hnonempty]
    simp only [Bool.not_false, if_true]
    rw [hkeys]
  have hmapping : (getDynamicColumns labels).2 = labelPairs labels 1 := by
    simp only [getDynamicColumns]
    rw [hnonempty]
    simp only [Bool.not_false, if_true]
    exact hfetch
  have hfold := lookup_foldl_dictSet (managerDisplayColumns labels)
    (fun col => match List.lookup col (getDynamicColumns labels).2 with
      | some dbCol => gridCell dbRow dbCol
      | none => gridCell dbRow col)
    [("Status", some statusStr), ("RowID", some rowId)]
    (labels.get ⟨j, hj⟩)
  refine hfold.trans ?_
  have hmem : labels.get ⟨j, hj⟩ ∈ managerDisplayColumns labels := by
    rw [hdisp]
    exact List.mem_append.mpr (Or.inl (List.mem_append.mpr
      (Or.inr (List.get_mem labels j hj))))
  rw [if_pos hmem]
  have hlk : List.lookup (labels.get ⟨j, hj⟩) (getDynamicColumns labels).2 =
      some (specName (j + 1)) := by
    rw [hmapping, lookup_labelPairs labels 1 j hj hnd]
    have harith : 1 + j = j + 1 := by omega
    rw [harith]
  rw [hlk]

theorem lookup_addRecordHistory_ne (record rowDict : List (String × Cell))
    (isNew : Bool) (ts user : String) (k : String)
    (hk : k ≠ "RecordHistory") :
    List.lookup k (addRecordHistory record rowDict isNew ts user) =
      List.lookup k record := by
  simp only [addRecordHistory]
  by_cases h : (existingHistory rowDict != "") = true
  · rw [h]
    simp only [if_true]
    exact lookup_dictSet_ne _ _ _ _ hk
  · rw [Bool.eq_false_iff.mpr h]
    simp only [Bool.false_eq_true, if_false]
    exact lookup_dictSet_ne _ _ _ _ hk

/-- C2 counterexample: the label-to-slot dict of the manager collapses duplicate
    labels (the second occurrence wins), while the write-back maps a label
    through `spec_labels.index(col) + 1` (the first occurrence).  With the
    catalog labels `["A", "A"]`, the mapping sends `A` to `Specifications2`,
    the grid shows the slot 2 value under `A`, but saving writes that value to
    `Specifications1` and leaves `Specifications2` absent — the claimed
    recovery of the original slot value fails. -/
theorem claim_C2_counterexample :
    fetchSpecificationLabels ["A", "A"] = [("A", "Specifications2")] ∧
    List.lookup "A"
        (buildGridRow ["A", "A"] "st" "R1" [("Specifications2", some "X")]) =
      some (some "X") ∧
    List.lookup "Specifications2"
        (buildRecord (managerDisplayColumns ["A", "A"])
          ((fetchSpecificationLabels ["A", "A"]).map Prod.fst)
          (fun _ => "")
          (buildGridRow ["A", "A"] "st" "R1" [("Specifications2", some "X")])
          false "t" "u") = none ∧
    List.lookup "Specifications1"
        (buildRecord (managerDisplayColumns ["A", "A"])
          ((fetchSpecificationLabels ["A", "A"]).map Prod.fst)
          (fun _ => "")
          (buildGridRow ["A", "A"] "st" "R1" [("Specifications2", some "X")])
          false "t" "u") = some (some "X") := by
  decide

/-- C2 as amended: when the catalog labels are pairwise distinct and no
    label collides with a SQL column name or fixed business field, the
    label/unlabel round trip is value-preserving: for every originally
    populated slot `Specifications{j+1}` covered by the mapping, the grid
    row shows the slot value under its label, and the record built by the
    save translation carries that same value back under
    `Specifications{j+1}`. -/
theorem claim_C2 (labels : List String) (hnd : labels.Nodup)
    (hfree : ∀ l ∈ labels, fixedFields.contains l = false ∧
      sqlColumnOrder.contains l = false)
    (j : Nat) (hj : j < labels.length) (dbRow : List (String × Cell))
    (s : String)
    (hpop : List.lookup (specName (j + 1)) dbRow = some (some s))
    (hs : pyStrip s ≠ "") (sessionGet : String → String)
    (statusStr rowId : String) (isNew : Bool) (ts user : String) :
    List.lookup (labels.get ⟨j, hj⟩)
        (buildGridRow labels statusStr rowId dbRow) = some (some s) ∧
    List.lookup (specName (j + 1))
        (buildRecord (managerDisplayColumns labels)
          ((fetchSpecificationLabels labels).map Prod.fst) sessionGet
          (buildGridRow labels statusStr rowId dbRow) isNew ts user) =
      some (some s) := by
  have hgridCell : gridCell dbRow (specName (j + 1)) = some s := by
    unfold gridCell
    rw [hpop]
  have hgrid : List.lookup (labels.get ⟨j, hj⟩)
      (buildGridRow labels statusStr rowId dbRow) = some (some s) := by
    rw [lookup_buildGridRow_label labels hnd j hj statusStr rowId dbRow,
      hgridCell]
  refine ⟨hgrid, ?_⟩
  have hne : labels ≠ [] := by
    intro h
    rw [h] at hj
    simp at hj
  have hkeys : (fetchSpecificationLabels labels).map Prod.fst = labels := by
    rw [fetchSpecificationLabels_eq labels hnd, labelPairs_map_fst]
  have hfne : fetchSpecificationLabels labels ≠ [] := by
    intro h0
    apply hne
    rw [← hkeys, h0]
    rfl
  have hnonempty : (fetchSpecificationLabels labels).isEmpty = false := by
    rcases hfetch0 : fetchSpecificationLabels labels with _ | ⟨p, ps⟩
    · exact absurd hfetch0 hfne
    · rfl
  have hdisp : managerDisplayColumns labels =
      managerBaseColumns ++ labels ++ managerEndColumns := by
    simp only [managerDisplayColumns, getDynamicColumns]
    rw [hnonempty]
    simp only [Bool.not_false, if_true]
    rw [hkeys]
  have hhist : "RecordHistory" ∈ managerBaseColumns ++ managerEndColumns := by
    decide
  have hkne : specName (j + 1) ≠ "RecordHistory" :=
    specName_ne_of_prefixFree (baseEnd_prefixFree _ hhist) (j + 1)
  unfold buildRecord
  rw [lookup_addRecordHistory_ne _ _ _ _ _ _ hkne, hkeys, hdisp]
  rw [lookup_buildRecordCore_label labels hnd hfree j hj sessionGet _]
  unfold pyGet
  rw [hgrid]
  simp only [Option.getD_some]
  have hnorm : normalizeCell (some s) = some s := by
    simp [normalizeCell, hs]
  rw [hnorm]

theorem claim_C2_witness :
    List.lookup "Weight (kg)"
        (buildGridRow ["Weight (kg)"] "st" "R1"
          [("Specifications1", some "1200")]) = some (some "1200") ∧
    List.lookup "Specifications1"
        (buildRecord (managerDisplayColumns ["Weight (kg)"])
          ((fetchSpecificationLabels ["Weight (kg)"]).map Prod.fst)
          (fun _ => "")
          (buildGridRow ["Weight (kg)"] "st" "R1"
            [("Specifications1", some "1200")])
          false "2024-01-01 00:00:00" "engineer") = some (some "1200") :=
  claim_C2 ["Weight (kg)"] (by decide) (by decide) 0 (by decide)
    [("Specifications1", some "1200")] "1200" (by decide) (by decide)
    (fun _ => "") "st" "R1" false "2024-01-01 00:00:00" "engineer"

/-- C7: the column orderer is idempotent. -/
theorem claim_C7 (cols : List String) :
    orderedColumnsForEditing (orderedColumnsForEditing cols) =
      orderedColumnsForEditing cols := by
  have hm := orderedColumnsForEditing_eq cols
  set pf := priorityColumns.filter (fun c => cols.contains c) with hpf
  set s1 := List.insertionSort pyStrLe (cols.filter specBucketB) with hs1
  set s2 := List.insertionSort pyStrLe (cols.filter sysBucketB) with hs2
  have hpf_mem : ∀ c ∈ pf, c ∈ priorityColumns := by
    intro c hc
    exact List.mem_of_mem_filter hc
  have hs1_mem : ∀ c ∈ s1, specBucketB c = true := by
    intro c hc
    rw [hs1, List.mem_insertionSort] at hc
    exact List.of_mem_filter hc
  have hs2_mem : ∀ c ∈ s2, sysBucketB c = true := by
    intro c hc
    rw [hs2, List.mem_insertionSort] at hc
    exact List.of_mem_filter hc
  have hprio : priorityColumns.filter
      (fun c => (pf ++ s1 ++ s2).contains c) = pf := by
    rw [hpf]
    apply List.filter_congr
    intro c hc
    rw [Bool.eq_iff_iff]
    constructor
    · intro hcont
      have hmem : c ∈ pf ++ s1 ++ s2 := List.elem_iff.mp hcont
      have hcc : c ∈ cols := by
        rcases List.mem_append.mp hmem with hmem | hmem
        · rcases List.mem_append.mp hmem with hmem | hmem
          · have hfc := List.of_mem_filter hmem
            exact List.elem_iff.mp hfc
          · exact absurd (hs1_mem c hmem)
              (by simp [priority_not_specBucket hc])
        · exact absurd (hs2_mem c hmem)
            (by simp [priority_not_sysBucket hc])
      exact List.elem_iff.mpr hcc
    · intro hcont
      have hmemPf : c ∈ pf := by
        rw [hpf]
        exact List.mem_filter.mpr ⟨hc, hcont⟩
      have hmemAll : c ∈ pf ++ s1 ++ s2 :=
        List.mem_append.mpr (Or.inl (List.mem_append.mpr (Or.inl hmemPf)))
      exact List.elem_iff.mpr hmemAll
  have hspec : (pf ++ s1 ++ s2).filter specBucketB = s1 := by
    rw [List.filter_append, List.filter_append]
    have h1 : pf.filter specBucketB = [] :=
      List.filter_eq_nil_iff.mpr
        (fun c hc => by simp [priority_not_specBucket (hpf_mem c hc)])
    have h2 : s1.filter specBucketB = s1 :=
      List.filter_eq_self.mpr (fun c hc => hs1_mem c hc)
    have h3 : s2.filter specBucketB = [] :=
      List.filter_eq_nil_iff.mpr
        (fun c hc => by simp [sysBucket_not_spec (hs2_mem c hc)])
    rw [h1, h2, h3]
    simp
  have hsys : (pf ++ s1 ++ s2).filter sysBucketB = s2 := by
    rw [List.filter_append, List.filter_append]
    have h1 : pf.filter sysBucketB = [] :=
      List.filter_eq_nil_iff.mpr
        (fun c hc => by simp [priority_not_sysBucket (hpf_mem c hc)])
    have h2 : s1.filter sysBucketB = [] :=
      List.filter_eq_nil_iff.mpr
        (fun c hc => by simp [specBucket_not_sys (hs1_mem c hc)])
    have h3 : s2.filter sysBucketB = s2 :=
      List.filter_eq_self.mpr (fun c hc => hs2_mem c hc)
    rw [h1, h2, h3]
    simp
  have hsort1 : List.insertionSort pyStrLe s1 = s1 :=
    List.Sorted.insertionSort_eq
      (by rw [hs1]; exact List.sorted_insertionSort _ _)
  have hsort2 : List.insertionSort pyStrLe s2 = s2 :=
    List.Sorted.insertionSort_eq
      (by rw [hs2]; exact List.sorted_insertionSort _ _)
  rw [orderedColumnsForEditing_eq (orderedColumnsForEditing cols), hm, hprio,
    hspec, hsys, hsort1, hsort2]

theorem claim_C4_witness :
    applyLabelsToMixedData demoGetLabels singleTypeDF =
      applyDynamicSpecLabels demoGetLabels singleTypeDF (some "A") ∧
    (applyLabelsToMixedData demoGetLabels mixedTypeDF =
      applyDynamicSpecLabels demoGetLabels mixedTypeDF
        (some (mostFrequentType
          (dropNone (mixedTypeDF.colValues "EquipmentType")) "A" ["B"]))) ∧
    applyLabelsToMixedData demoGetLabels noTypeDF =
      removeAllSpecColumns noTypeDF :=
  ⟨(claim_C4 demoGetLabels singleTypeDF).1 "A" (by decide) (by decide)
      (by decide),
    ((claim_C4 demoGetLabels mixedTypeDF).2.1 "A" "B" [] (by decide)
      (by decide) (by decide)).1,
    (claim_C4 demoGetLabels noTypeDF).2.2.1 (by decide)⟩

end EquipSpec
